import Mathlib

/-!
Verification of the quota subsystem of the gastown repository
(internal/quota: session scanner and memory unifier).

The Go sources are shallowly embedded below.  Pure helpers become Lean
functions; filesystem-touching code becomes explicit state passing over an
`FS` record.  Go `float64` utilization values are modelled as `ℚ`: the code
only ever compares them (no arithmetic is performed on them), so exact
rationals are a faithful model of the comparisons.
-/

namespace Gastown.Quota

/-! ## Go string primitives used by the scanner -/

/-- `unicode.IsSpace` from the Go standard library, as used by
`strings.TrimSpace`: the Unicode white-space code points. -/
def goIsSpace (c : Char) : Bool :=
  c = ' ' || c = '\t' || c = '\n' || c = '\r' ||
  c = Char.ofNat 0x0B || c = Char.ofNat 0x0C ||
  c = Char.ofNat 0x85 || c = Char.ofNat 0xA0 ||
  c = Char.ofNat 0x1680 ||
  (0x2000 ≤ c.toNat && c.toNat ≤ 0x200A) ||
  c = Char.ofNat 0x2028 || c = Char.ofNat 0x2029 ||
  c = Char.ofNat 0x202F || c = Char.ofNat 0x205F || c = Char.ofNat 0x3000

/-- Go `strings.TrimSpace`: drop leading and trailing white space. -/
def trimSpace (s : String) : String :=
  String.mk (((s.data.dropWhile goIsSpace).reverse.dropWhile goIsSpace).reverse)

/-- Helper for `splitLines`: accumulates the current line (reversed). -/
def splitLinesAux : List Char → List Char → List String
  | [], acc => [String.mk acc.reverse]
  | c :: rest, acc =>
    if c = '\n' then String.mk acc.reverse :: splitLinesAux rest []
    else splitLinesAux rest (c :: acc)

/-- Go `strings.Split(content, "\n")`: split on every newline; a string with
`n` newlines yields `n+1` pieces, empties preserved. -/
def splitLines (s : String) : List String := splitLinesAux s.data []

/-! ## parseResetTime

Embeds the Go regular expression `(?i)\bresets\s+(.+)` together with
`strings.TrimSpace` of the first capture group
(`parseResetTime` in internal/quota).  The RE2 character classes are:
`\w = [0-9A-Za-z_]`, `\s = [\t\n\f\r ]`, `.` is any character except `\n`.
-/

/-- RE2 `\w` (no Unicode flag): ASCII alphanumerics and underscore. -/
def isWordChar (c : Char) : Bool := c.isAlphanum || c = '_'

/-- RE2 `\s`: the five ASCII white-space characters. -/
def reSpace (c : Char) : Bool :=
  c = ' ' || c = '\t' || c = '\n' || c = Char.ofNat 0x0C || c = '\r'

/-- Does the character list start with `resets`, case-insensitively
(the pattern is compiled with `(?i)`; the letters involved are ASCII)? -/
def startsWithResets (l : List Char) : Bool :=
  (l.take 6).map Char.toLower = "resets".data

/-- Matches `\s+(.+)` against `rest` (the text following `resets`) and
returns the capture of `(.+)` if the whole tail pattern matches here.
Greedy semantics: `\s+` takes the longest white-space run that still leaves
at least one non-newline character for `(.+)`, which then extends to the
next newline or the end. -/
def resetCapture (rest : List Char) : Option (List Char) :=
  let wmax := (rest.takeWhile reSpace).length
  match (((List.range wmax).map (· + 1)).reverse.find? fun w =>
      match rest.drop w with
      | c :: _ => c != '\n'
      | [] => false) with
  | some w => some ((rest.drop w).takeWhile (· != '\n'))
  | none => none

/-- Scans for the leftmost position where `\bresets\s+(.+)` matches and
returns the capture.  `wordBefore` says whether the previous character was a
word character (for the `\b` boundary; `r` itself is a word character, so
the boundary holds exactly when the previous character is not one). -/
def findResetCapture : Bool → List Char → Option (List Char)
  | _, [] => none
  | wordBefore, c :: rest =>
    if !wordBefore && startsWithResets (c :: rest) then
      match resetCapture ((c :: rest).drop 6) with
      | some cap => some cap
      | none => findResetCapture (isWordChar c) rest
    else findResetCapture (isWordChar c) rest

/-- Go `parseResetTime`: first submatch of `(?i)\bresets\s+(.+)`, trimmed;
empty string when the pattern does not match. -/
def parseResetTime (line : String) : String :=
  match findResetCapture false line.data with
  | some cap => trimSpace (String.mk cap)
  | none => ""

/-! ## Usage data (usage.go) -/

/-- `UsageWindow`: one rate-limit window. -/
structure UsageWindow where
  Utilization : ℚ
  ResetsAt : String := ""
deriving DecidableEq

/-- `UsageInfo`: quota utilization data from the usage API. -/
structure UsageInfo where
  FiveHour : Option UsageWindow := none
  SevenDay : Option UsageWindow := none
deriving DecidableEq

/-- `UsageInfo.MaxUtilization`: highest utilization across all windows,
starting from 0. -/
def UsageInfo.MaxUtilization (u : UsageInfo) : ℚ :=
  let m : ℚ := 0
  let m : ℚ :=
    match u.FiveHour with
    | some w => if w.Utilization > m then w.Utilization else m
    | none => m
  match u.SevenDay with
  | some w => if w.Utilization > m then w.Utilization else m
  | none => m

/-- Modelled from the spec: `constants.DefaultUsageThreshold` lives in the
internal constants package, which is not among the provided sources; the
spec states the default near-limit threshold is 80 percent. -/
def DefaultUsageThreshold : ℚ := 80

/-! ## Scanner (scan logic of internal/quota) -/

/-- `ScanResult`: result of scanning a single tmux session. -/
structure ScanResult where
  Session : String := ""
  AccountHandle : String := ""
  ConfigDir : String := ""
  RateLimited : Bool := false
  NearLimit : Bool := false
  MatchedLine : String := ""
  ResetsAt : String := ""
  Usage : Option UsageInfo := none
deriving DecidableEq

/-- `scanLines`: number of pane lines captured. -/
def scanLines : Nat := 30

/-- `checkLines`: number of bottom lines actually checked for patterns. -/
def checkLines : Nat := 20

/-- A compiled pattern is modelled as a predicate on the (trimmed) line:
`re.MatchString line`. -/
abbrev LinePattern := String → Bool

/-- The shared loop shape of both pattern passes in `scanSession`: walk the
lines top to bottom, trim each, skip empties, and return the first trimmed
line some pattern matches. -/
def firstPatternMatch (pats : List LinePattern) : List String → Option String
  | [] => none
  | line :: rest =>
    let t := trimSpace line
    if t = "" then firstPatternMatch pats rest
    else if pats.any (fun p => p t) then some t
    else firstPatternMatch pats rest

/-- The checked tail of a capture, exactly as computed in `scanSession`:
split on newlines, then keep the bottom `checkLines` lines
(`start := len(allLines) - checkLines; if start < 0 { start = 0 }`). -/
def checkedTail (content : String) : List String :=
  let allLines := splitLines content
  let start : Int := (allLines.length : Int) - (checkLines : Int)
  let start : Int := if start < 0 then 0 else start
  allLines.drop start.toNat

/-- `scanSession`, embedded pure.  The tmux interactions are inputs:
`envConfigDir` is the result of `GetEnvironment(session, CLAUDE_CONFIG_DIR)`
(`none` = the call returned an error), `home` the result of
`os.UserHomeDir` (empty on failure; the error is discarded by the code),
`accountHandle` the result of `resolveAccountHandle`, and `capture` the
result of `CapturePane` (`none` = error, session dead). -/
def scanSession (hardPatterns warningPatterns : List LinePattern)
    (sess : String) (envConfigDir : Option String) (home : String)
    (accountHandle : String) (capture : Option String) : ScanResult :=
  let configDir : String :=
    match envConfigDir with
    | some v => trimSpace v
    | none => if home ≠ "" then home ++ "/.claude" else ""
  let base : ScanResult :=
    { Session := sess, ConfigDir := configDir, AccountHandle := accountHandle }
  match capture with
  | none => base
  | some content =>
    let bottomLines := checkedTail content
    match firstPatternMatch hardPatterns bottomLines with
    | some line =>
      { base with RateLimited := true, MatchedLine := line,
                  ResetsAt := parseResetTime line }
    | none =>
      if warningPatterns.length > 0 then
        match firstPatternMatch warningPatterns bottomLines with
        | some line => { base with NearLimit := true, MatchedLine := line }
        | none => base
      else base

/-- The per-result body of `enrichWithUsage`: `usage` is the entry of the
per-account usage map for this result (`none` = account missing from the
map, the loop does `continue`).  Attaches the snapshot, then promotes to
near-limit only when not already hard-limited or near-limit and the maximum
utilization meets the threshold. -/
def enrichWithUsage (usageThreshold : ℚ) (usage : Option UsageInfo)
    (r : ScanResult) : ScanResult :=
  match usage with
  | none => r
  | some u =>
    let r := { r with Usage := some u }
    if !r.RateLimited && !r.NearLimit then
      if u.MaxUtilization ≥ usageThreshold then { r with NearLimit := true }
      else r
    else r

/-! ## Filesystem model (for memory.go)

Paths are modelled as cleaned absolute paths, represented by their list of
segments (`filepath.Join` on cleaned arguments is list append; appending a
suffix to a path string, as in `memoryDir + ".bak"`, edits the last
segment; `filepath.Dir` drops the last segment; `filepath.Abs` is the
identity on cleaned absolute paths).  The filesystem is a record of
directory, file and symlink tables keyed by path.  Symlinks are resolved
as whole paths (a chain at the final component); symlinks appearing as
intermediate components of longer paths are not modelled, and the code
under verification only reads through directories that are real
directories at those points.  `denySymlink` injects environment failures
(such as permission errors) for symlink creation, so that the failure
branches of the code are realizable in the model. -/

/-- A path: the segment list of a cleaned absolute path. -/
abbrev Path := List String

/-- The metadata-carrying content of a regular file. -/
structure FileData where
  content : String
  modTime : Int
deriving DecidableEq

instance : Inhabited FileData := ⟨⟨"", 0⟩⟩

/-- File size in bytes, as reported by `Stat`/`Info`. -/
def FileData.size (f : FileData) : Nat := f.content.utf8ByteSize

/-- A symlink target as stored on disk: possibly relative, possibly
containing `..` segments. -/
structure SymTarget where
  isAbs : Bool
  segs : List String
deriving DecidableEq

instance : Inhabited SymTarget := ⟨⟨true, []⟩⟩

/-- The filesystem state. -/
structure FS where
  dirs : List Path
  files : List (Path × FileData)
  symlinks : List (Path × SymTarget)
  denySymlink : List Path
  now : Int
deriving DecidableEq

/-- Node kinds as distinguished by `Lstat` / `DirEntry`. -/
inductive NodeKind
  | dir
  | file
  | symlink
deriving DecidableEq

/-- Boolean membership of a path in a path list. -/
def pmem (p : Path) (l : List Path) : Bool := l.any (fun q => decide (q = p))

def FS.lookupFile (fs : FS) (p : Path) : Option FileData :=
  (fs.files.find? (fun e => decide (e.1 = p))).map (·.2)

def FS.lookupLink (fs : FS) (p : Path) : Option SymTarget :=
  (fs.symlinks.find? (fun e => decide (e.1 = p))).map (·.2)

/-- All paths that exist in the filesystem. -/
def FS.allKeys (fs : FS) : List Path :=
  fs.dirs ++ fs.files.map (·.1) ++ fs.symlinks.map (·.1)

/-- `os.Lstat`: the kind of the node at `p` itself, without following a
link at `p`. -/
def FS.lstat (fs : FS) (p : Path) : Option NodeKind :=
  if (fs.lookupLink p).isSome then some .symlink
  else if (fs.lookupFile p).isSome then some .file
  else if pmem p fs.dirs then some .dir
  else none

/-- Interpret `.` and `..` segments against an absolute base
(`filepath.Clean` on an absolute path). -/
def cleanAbs (segs : List String) : Path :=
  segs.foldl (fun acc s =>
    if s = "." then acc
    else if s = ".." then acc.dropLast
    else acc ++ [s]) []

/-- Resolve a symlink target against the directory of the link, exactly as
`symlinkMatchesTarget` does: an absolute target stands alone; a relative
target is joined to `filepath.Dir(symlinkPath)`; both are cleaned
(`filepath.Join`/`filepath.Abs` clean their result). -/
def resolveTarget (linkPath : Path) (t : SymTarget) : Path :=
  if t.isAbs then cleanAbs t.segs else cleanAbs (linkPath.dropLast ++ t.segs)

/-- Follow a chain of whole-path symlinks (fuel-limited, like the OS
`ELOOP` bound). -/
def FS.resolve : Nat → FS → Path → Option Path
  | 0, _, _ => none
  | fuel + 1, fs, p =>
    match fs.lookupLink p with
    | some t => FS.resolve fuel fs (resolveTarget p t)
    | none => some p

/-- `os.Stat`: follows links; returns (modTime, size).  Directory metadata
are not modelled and read as (0, 0); no theorem below depends on them. -/
def FS.statNode (fs : FS) (p : Path) : Option (Int × Nat) :=
  match FS.resolve 40 fs p with
  | none => none
  | some q =>
    match fs.lookupFile q with
    | some fd => some (fd.modTime, fd.size)
    | none => if pmem q fs.dirs then some (0, 0) else none

/-- `DirEntry.Info` (`Lstat` semantics: information about the entry
itself).  Symlink and directory metadata are not modelled and read as
(0, 0); the merge theorems below are conditioned on plain-file sources. -/
def FS.entryInfo (fs : FS) (p : Path) : Option (Int × Nat) :=
  match fs.lookupFile p with
  | some fd => some (fd.modTime, fd.size)
  | none =>
    match fs.lookupLink p with
    | some _ => some (0, 0)
    | none => if pmem p fs.dirs then some (0, 0) else none

/-- A directory entry as returned by `os.ReadDir`. -/
structure DirEnt where
  name : String
  kind : NodeKind
deriving DecidableEq

/-- The name of `q` when `q` is an immediate child of `p`. -/
def childName (p q : Path) : Option String :=
  if q.take p.length = p then
    match q.drop p.length with
    | [n] => some n
    | _ => none
  else none

/-- Lexicographic comparison of character lists, the order in which
`os.ReadDir` returns names (byte order; identical to this code-point order
on the ASCII names involved). -/
def charsLE : List Char → List Char → Bool
  | [], _ => true
  | _ :: _, [] => false
  | a :: as, b :: bs =>
    if a.toNat < b.toNat then true
    else if b.toNat < a.toNat then false
    else charsLE as bs

/-- Insertion into a sorted list of names. -/
def insertSorted (s : String) : List String → List String
  | [] => [s]
  | x :: xs => if charsLE s.data x.data then s :: x :: xs else x :: insertSorted s xs

/-- Sort names, as `os.ReadDir` returns entries sorted by filename. -/
def sortStrings (l : List String) : List String := l.foldr insertSorted []

/-- `os.ReadDir`: follows a link at `p`, requires a directory, and returns
the children sorted by name with their `Lstat` kinds. -/
def FS.readDir (fs : FS) (p : Path) : Option (List DirEnt) :=
  match FS.resolve 40 fs p with
  | none => none
  | some q =>
    if pmem q fs.dirs then
      let names := fs.dirs.filterMap (childName q) ++
        (fs.files.map (·.1)).filterMap (childName q) ++
        (fs.symlinks.map (·.1)).filterMap (childName q)
      let names := sortStrings names.dedup
      some (names.filterMap (fun n =>
        (fs.lstat (q ++ [n])).map (fun k => ⟨n, k⟩)))
    else none

/-- Key rewriting under a rename: `q` and everything below it moves. -/
def renameKey (old new q : Path) : Path :=
  if q.take old.length = old then new ++ q.drop old.length else q

/-- `os.Rename`: fails when the source is missing or the destination
exists.  (POSIX rename can atomically replace certain destinations; the
code never renames onto an existing path, so the model conservatively
fails there.) -/
def FS.rename (fs : FS) (old new : Path) : Option FS :=
  if (fs.lstat old).isNone then none
  else if (fs.lstat new).isSome then none
  else some { fs with
    dirs := fs.dirs.map (renameKey old new),
    files := fs.files.map (fun e => (renameKey old new e.1, e.2)),
    symlinks := fs.symlinks.map (fun e => (renameKey old new e.1, e.2)) }

/-- The non-empty prefixes of a path: its ancestors and itself. -/
def pathPrefixes (p : Path) : List Path :=
  (List.range p.length).map (fun i => p.take (i + 1))

/-- `os.MkdirAll`: succeeds immediately when `p` is a directory; creates
all missing ancestors; fails when a file or symlink stands anywhere on the
way (the code only calls it where the components are plain directories). -/
def FS.mkdirAll (fs : FS) (p : Path) : Option FS :=
  if pmem p fs.dirs then some fs
  else if (pathPrefixes p).any (fun q =>
      (fs.lookupFile q).isSome || (fs.lookupLink q).isSome) then none
  else some { fs with
    dirs := fs.dirs ++ (pathPrefixes p).filter (fun q => !pmem q fs.dirs) }

/-- `os.Symlink(target, linkPath)`: fails when the link path exists, when
its parent directory is missing, or when the environment denies the
operation (injected fault, e.g. permissions). -/
def FS.symlink (fs : FS) (target linkPath : Path) : Option FS :=
  if (fs.lstat linkPath).isSome then none
  else if !pmem linkPath.dropLast fs.dirs then none
  else if pmem linkPath fs.denySymlink then none
  else some { fs with symlinks := fs.symlinks ++ [(linkPath, ⟨true, target⟩)] }

/-- Is `q` equal to `p` or below it? -/
def underOrEq (p q : Path) : Bool := decide (q.take p.length = p)

/-- `os.RemoveAll`: removes the node at `p` and everything below it; never
reports an error that the code would look at. -/
def FS.removeAll (fs : FS) (p : Path) : FS :=
  { fs with
    dirs := fs.dirs.filter (fun q => !underOrEq p q),
    files := fs.files.filter (fun e => !underOrEq p e.1),
    symlinks := fs.symlinks.filter (fun e => !underOrEq p e.1) }

/-- `os.ReadFile`: follows links, then reads a regular file. -/
def FS.readFile (fs : FS) (p : Path) : Option String :=
  (FS.resolve 40 fs p).bind (fun q => (fs.lookupFile q).map (·.content))

/-- `os.WriteFile`: follows an existing link at `p`, then creates or
truncates the regular file; fails on a directory or a missing parent.  The
new file carries the current clock `fs.now` as its modification time. -/
def FS.writeFile (fs : FS) (p : Path) (data : String) : Option FS :=
  match FS.resolve 40 fs p with
  | none => none
  | some q =>
    if pmem q fs.dirs then none
    else if !pmem q.dropLast fs.dirs then none
    else some { fs with
      files := fs.files.filter (fun e => !decide (e.1 = q)) ++
        [(q, ⟨data, fs.now⟩)] }

/-- `copyFile`: read the source, write the destination. -/
def copyFile (fs : FS) (src dst : Path) : Option FS :=
  match fs.readFile src with
  | none => none
  | some data => fs.writeFile dst data

/-! ## Memory unification (memory.go) -/

/-- `projectEntry`: one account and its memory dir for a project. -/
structure projectEntry where
  AccountName : String
  MemoryDir : Path
deriving DecidableEq

/-- `UnifyResult`: per-project report of a unification pass.  The warning
strings carry the fixed message texts; the wrapped OS error texts are not
modelled. -/
structure UnifyResult where
  ProjectPath : String
  SharedDir : Path
  AccountsMerged : List String := []
  SymlinksCreated : List String := []
  AlreadyLinked : List String := []
  Warnings : List String := []
deriving DecidableEq

/-- `memoryDir + ".bak"`: string concatenation on a path edits its last
segment. -/
def bakPath (p : Path) : Path :=
  match p.getLast? with
  | some s => p.dropLast ++ [s ++ ".bak"]
  | none => p

/-- `symlinkMatchesTarget`: read the link, make a relative target absolute
against the directory of the link, and compare the cleaned forms.  (The
`filepath.Abs` error fallbacks cannot occur in the model: paths are
already absolute.) -/
def symlinkMatchesTarget (fs : FS) (symlinkPath expectedTarget : Path) : Bool :=
  match fs.lookupLink symlinkPath with
  | none => false
  | some t => decide (resolveTarget symlinkPath t = expectedTarget)

/-- `replaceWithSymlink`: rename the directory aside to a `.bak` backup,
ensure the parent exists, create the symlink; on failure rename the backup
back (that restore error is discarded, as in the source); on success
remove the backup.  Returns the new state and an error (`none` =
success). -/
def replaceWithSymlink (fs : FS) (memoryDir sharedDir : Path) :
    FS × Option String :=
  let backupDir := bakPath memoryDir
  match fs.rename memoryDir backupDir with
  | none => (fs, some "backing up")
  | some fs1 =>
    let parent := memoryDir.dropLast
    match fs1.mkdirAll parent with
    | none =>
      let fs2 := match fs1.rename backupDir memoryDir with
        | some fs2 => fs2
        | none => fs1
      (fs2, some "creating parent")
    | some fs2 =>
      match fs2.symlink sharedDir memoryDir with
      | none =>
        let fs3 := match fs2.rename backupDir memoryDir with
          | some fs3 => fs3
          | none => fs2
        (fs3, some "creating symlink")
      | some fs3 => (fs3.removeAll backupDir, none)

/-- `memoryCandidate` from `mergeMemoryContent`. -/
structure memoryCandidate where
  path : Path
  account : String
  modTime : Int
  size : Nat
deriving DecidableEq

/-- The per-file body of the scan loop in `mergeMemoryContent`: directories
are skipped; a `MEMORY.md` becomes the best candidate when strictly newer,
or equally new and strictly larger; any other name is recorded at its
first occurrence. -/
def mergeScanFile (fs : FS) (entry : projectEntry)
    (st : Option memoryCandidate × List (String × Path)) (f : DirEnt) :
    Option memoryCandidate × List (String × Path) :=
  if f.kind = .dir then st
  else
    let srcPath := entry.MemoryDir ++ [f.name]
    match fs.entryInfo srcPath with
    | none => st
    | some info =>
      if f.name = "MEMORY.md" then
        let candidate : memoryCandidate :=
          ⟨srcPath, entry.AccountName, info.1, info.2⟩
        match st.1 with
        | none => (some candidate, st.2)
        | some best =>
          if candidate.modTime > best.modTime ∨
              (candidate.modTime = best.modTime ∧ candidate.size > best.size)
          then (some candidate, st.2)
          else (some best, st.2)
      else
        if (st.2.find? (fun e => decide (e.1 = f.name))).isSome then st
        else (st.1, st.2 ++ [(f.name, srcPath)])

/-- The per-entry body of the scan loop in `mergeMemoryContent`: an entry
whose directory cannot be read is skipped (and not recorded as merged). -/
def mergeScanEntry (fs : FS)
    (st : Option memoryCandidate × List (String × Path) × List String)
    (entry : projectEntry) :
    Option memoryCandidate × List (String × Path) × List String :=
  match fs.readDir entry.MemoryDir with
  | none => st
  | some files =>
    let scanned := files.foldl (mergeScanFile fs entry) (st.1, st.2.1)
    (scanned.1, scanned.2, st.2.2 ++ [entry.AccountName])

/-- The scan phase of `mergeMemoryContent`: fold over the entries. -/
def mergeScan (fs : FS) (entries : List projectEntry) :
    Option memoryCandidate × List (String × Path) × List String :=
  entries.foldl (mergeScanEntry fs) (none, [], [])

/-- The copy loop for non-summary files: copy each recorded file unless a
file of that name already exists in the shared dir; a copy failure aborts
with an error.  (Go iterates this map in unspecified order; the model uses
first-insertion order.  The copies target distinct names, so the
successful-case result does not depend on the order.) -/
def copyOtherFiles (sharedDir : Path) : FS → List (String × Path) → FS × Bool
  | fs, [] => (fs, true)
  | fs, (name, srcPath) :: rest =>
    let destPath := sharedDir ++ [name]
    match fs.statNode destPath with
    | some _ => copyOtherFiles sharedDir fs rest
    | none =>
      match copyFile fs srcPath destPath with
      | none => (fs, false)
      | some fs2 => copyOtherFiles sharedDir fs2 rest

/-- `mergeMemoryContent`: scan all source dirs, copy the best `MEMORY.md`
into the shared dir unless the shared copy is newer (or equally new and at
least as large), then copy the other files not already present.  Returns
the state, the updated result, and whether the merge succeeded. -/
def mergeMemoryContent (fs : FS) (entries : List projectEntry)
    (sharedDir : Path) (result : UnifyResult) : FS × UnifyResult × Bool :=
  let scanned := mergeScan fs entries
  let bestMemory := scanned.1
  let otherFiles := scanned.2.1
  let result :=
    { result with AccountsMerged := result.AccountsMerged ++ scanned.2.2 }
  let copyBest : Option FS :=
    match bestMemory with
    | none => some fs
    | some best =>
      let sharedMemory := sharedDir ++ ["MEMORY.md"]
      let shouldCopy : Bool :=
        match fs.statNode sharedMemory with
        | none => true
        | some info =>
          if info.1 > best.modTime ∨
              (info.1 = best.modTime ∧ info.2 ≥ best.size)
          then false else true
      if shouldCopy then copyFile fs best.path sharedMemory else some fs
  match copyBest with
  | none => (fs, result, false)
  | some fs1 =>
    let copied := copyOtherFiles sharedDir fs1 otherFiles
    (copied.1, result, copied.2)

/-- The per-entry body of the classification loop at the top of
`unifyProject`: entries whose `Lstat` fails are skipped; a symlink
pointing at the shared dir is already linked; anything else (real dir,
file, or wrong-target symlink) needs consolidation. -/
def classifyStep (fs : FS) (sharedDir : Path)
    (st : List projectEntry × List String) (entry : projectEntry) :
    List projectEntry × List String :=
  match fs.lstat entry.MemoryDir with
  | none => st
  | some k =>
    if k = .symlink ∧ symlinkMatchesTarget fs entry.MemoryDir sharedDir then
      (st.1, st.2 ++ [entry.AccountName])
    else (st.1 ++ [entry], st.2)

/-- The classification loop of `unifyProject`. -/
def classifyEntries (fs : FS) (sharedDir : Path)
    (entries : List projectEntry) : List projectEntry × List String :=
  entries.foldl (classifyStep fs sharedDir) ([], [])

/-- The symlink-replacement loop at the bottom of `unifyProject`: a
failure is recorded as a warning and the loop continues; a success is
recorded in `SymlinksCreated`. -/
def replaceLoop (sharedDir : Path) : FS × UnifyResult → List projectEntry →
    FS × UnifyResult
  | st, [] => st
  | (fs, result), entry :: rest =>
    match replaceWithSymlink fs entry.MemoryDir sharedDir with
    | (fs2, some msg) =>
      replaceLoop sharedDir
        (fs2, { result with Warnings := result.Warnings ++
            ["failed to symlink " ++ entry.AccountName ++ ": " ++ msg] }) rest
    | (fs2, none) =>
      replaceLoop sharedDir
        (fs2, { result with SymlinksCreated := result.SymlinksCreated ++
            [entry.AccountName] }) rest

/-- `unifyProject`: classify the entries; when nothing needs consolidation
return unchanged; in dry-run mode only report what would be linked; else
create the shared dir, merge content (aborting symlink creation on a merge
failure), and replace each remaining entry with a symlink. -/
def unifyProject (fs : FS) (projectPath : String)
    (entries : List projectEntry) (sharedBase : Path) (dryRun : Bool) :
    FS × UnifyResult :=
  let sharedDir := sharedBase ++ [projectPath]
  let classified := classifyEntries fs sharedDir entries
  let realDirs := classified.1
  let result : UnifyResult :=
    { ProjectPath := projectPath, SharedDir := sharedDir,
      AlreadyLinked := classified.2 }
  if realDirs.isEmpty then (fs, result)
  else if dryRun then
    (fs, { result with SymlinksCreated := realDirs.map (·.AccountName) })
  else
    match fs.mkdirAll sharedDir with
    | none =>
      (fs, { result with Warnings := result.Warnings ++
          ["failed to create shared dir"] })
    | some fs1 =>
      let merged := mergeMemoryContent fs1 realDirs sharedDir result
      if merged.2.2 = false then
        (merged.1, { merged.2.1 with Warnings := merged.2.1.Warnings ++
            ["merge failed, aborting symlink creation"] })
      else replaceLoop sharedDir (merged.1, merged.2.1) realDirs

/-- Append to the entry list of a key in the project map, preserving the
first-discovery key order (Go map key iteration order is unspecified; only
lookups and per-key entry order are observable in the claims). -/
def assocAppend (m : List (String × List projectEntry)) (k : String)
    (v : projectEntry) : List (String × List projectEntry) :=
  match m with
  | [] => [(k, [v])]
  | (k2, vs) :: rest =>
    if k2 = k then (k2, vs ++ [v]) :: rest else (k2, vs) :: assocAppend rest k v

def assocFind (m : List (String × List projectEntry)) (k : String) :
    Option (List projectEntry) :=
  (m.find? (fun e => decide (e.1 = k))).map (·.2)

/-- `discoverProjects`: scan every account directory for projects with a
memory entry (real dir or symlink); accounts without a readable projects
dir are skipped; failure to read the accounts root is the only error. -/
def discoverProjects (fs : FS) (accountsDir : Path) :
    Option (List (String × List projectEntry)) :=
  match fs.readDir accountsDir with
  | none => none
  | some accounts =>
    some (accounts.foldl (fun projects acct =>
      if acct.kind ≠ NodeKind.dir then projects
      else
        let projectsDir := accountsDir ++ [acct.name, "projects"]
        match fs.readDir projectsDir with
        | none => projects
        | some projEntries =>
          projEntries.foldl (fun projects proj =>
            if proj.kind ≠ NodeKind.dir then projects
            else
              let memoryDir := projectsDir ++ [proj.name, "memory"]
              if (fs.lstat memoryDir).isSome then
                assocAppend projects proj.name ⟨acct.name, memoryDir⟩
              else projects) projects) [])

/-- `UnifyMemory`: unify every discovered project. -/
def UnifyMemory (fs : FS) (accountsDir sharedBase : Path) (dryRun : Bool) :
    Option (FS × List UnifyResult) :=
  match discoverProjects fs accountsDir with
  | none => none
  | some projects =>
    some (projects.foldl (fun st pe =>
      let r := unifyProject st.1 pe.1 pe.2 sharedBase dryRun
      (r.1, st.2 ++ [r.2])) (fs, []))

/-- The length of the common leading segment run of two paths. -/
def commonPrefixLen : List String → List String → Nat
  | a :: as, b :: bs => if a = b then commonPrefixLen as bs + 1 else 0
  | _, _ => 0

/-- `filepath.Rel` on two cleaned absolute paths, as a segment list: strip
the common prefix, then one `..` per remaining base segment followed by
the remaining target segments.  The empty list renders as `.`. -/
def goRelSegs (base targ : Path) : List String :=
  let common := commonPrefixLen base targ
  List.replicate (base.length - common) ".." ++ targ.drop common

/-- `strings.HasPrefix(s, "..")`. -/
def strStartsWithDotDot (s : String) : Bool := "..".data.isPrefixOf s.data

/-- `strings.HasPrefix(rel, "..")` on the rendered relative path: with `/`
as separator this holds exactly when the first segment starts with `..`
(the empty segment list renders as `.`, which does not). -/
def relHasDotDotPrefix (rel : List String) : Bool :=
  match rel with
  | [] => false
  | s :: _ => strStartsWithDotDot s

/-- `UnifyProjectMemoryForConfigDir`: derive the account from the position
of `configDir` under `accountsDir` (a no-op when it is not under it), then
re-unify every project of that account across all accounts.  Inputs are
cleaned absolute paths, so `filepath.Abs` is the identity and
`filepath.Rel` cannot fail.  The returned Bool is `true` when the call
returns a nil error. -/
def UnifyProjectMemoryForConfigDir (fs : FS)
    (accountsDir sharedBase configDir : Path) : FS × Bool :=
  let absAccountsDir := accountsDir
  let absConfigDir := configDir
  let rel := goRelSegs absAccountsDir absConfigDir
  if relHasDotDotPrefix rel then (fs, true)
  else
    let accountName := match rel.head? with
      | some a => a
      | none => "."
    let projectsDir := accountsDir ++ [accountName, "projects"]
    match fs.readDir projectsDir with
    | none => (fs, true)
    | some entries =>
      (entries.foldl (fun fsAcc entry =>
        if entry.kind ≠ NodeKind.dir then fsAcc
        else
          let projectPath := entry.name
          let memoryDir := projectsDir ++ [projectPath, "memory"]
          match fsAcc.lstat memoryDir with
          | none => fsAcc
          | some k =>
            let sharedDir := sharedBase ++ [projectPath]
            if k = NodeKind.symlink ∧
                symlinkMatchesTarget fsAcc memoryDir sharedDir then fsAcc
            else
              match discoverProjects fsAcc accountsDir with
              | none => fsAcc
              | some allProjects =>
                match assocFind allProjects projectPath with
                | some projectEntries =>
                  (unifyProject fsAcc projectPath projectEntries sharedBase
                    false).1
                | none =>
                  (unifyProject fsAcc projectPath
                    [⟨accountName, memoryDir⟩] sharedBase false).1) fs,
       true)

/-- `(m, s)` is at most `b` in the (modification time, size) order used by
the merge. -/
def candLE (m : Int) (s : Nat) (b : memoryCandidate) : Prop :=
  m < b.modTime ∨ (m = b.modTime ∧ s ≤ b.size)

/-! ## Helper lemmas about the scanner -/

/-- The `ConfigDir` field is fixed before any pattern matching and is not
touched by any later branch of `scanSession`. -/
theorem scanSession_ConfigDir_eq (hp wp : List LinePattern) (sess : String)
    (e : Option String) (home acct : String) (capture : Option String) :
    (scanSession hp wp sess e home acct capture).ConfigDir =
      (match e with
       | some v => trimSpace v
       | none => if home ≠ "" then home ++ "/.claude" else "") := by
  unfold scanSession
  cases capture with
  | none => rfl
  | some content =>
    dsimp only
    cases firstPatternMatch hp (checkedTail content) with
    | some line => rfl
    | none =>
      dsimp only
      split
      · cases firstPatternMatch wp (checkedTail content) <;> rfl
      · rfl

/-- A `scanSession` result is never both hard-limited and near-limit. -/
theorem scanSession_not_both (hp wp : List LinePattern) (sess : String)
    (e : Option String) (home acct : String) (capture : Option String)
    (hl : (scanSession hp wp sess e home acct capture).RateLimited = true) :
    (scanSession hp wp sess e home acct capture).NearLimit = false := by
  unfold scanSession at *
  cases capture with
  | none => rfl
  | some content =>
    dsimp only at *
    cases hfm : firstPatternMatch hp (checkedTail content) with
    | some line => rfl
    | none =>
      rw [hfm] at hl
      dsimp only at *
      split at hl
      · cases hwm : firstPatternMatch wp (checkedTail content) <;>
          rw [hwm] at hl <;> exact absurd hl (by simp)
      · exact absurd hl (by simp)

/-- Usage enrichment never changes the hard-limit flag. -/
theorem enrichWithUsage_RateLimited (th : ℚ) (u : Option UsageInfo)
    (r : ScanResult) : (enrichWithUsage th u r).RateLimited = r.RateLimited := by
  unfold enrichWithUsage
  cases u with
  | none => rfl
  | some u =>
    dsimp only
    split
    · split <;> rfl
    · rfl

/-- Usage enrichment leaves the near-limit flag of an already hard-limited
result unchanged. -/
theorem enrichWithUsage_NearLimit_of_hard (th : ℚ) (u : Option UsageInfo)
    (r : ScanResult) (hr : r.RateLimited = true) :
    (enrichWithUsage th u r).NearLimit = r.NearLimit := by
  unfold enrichWithUsage
  cases u with
  | none => rfl
  | some u => simp [hr]

/-- If no line of the list matches any pattern, the pattern pass finds
nothing. -/
theorem firstPatternMatch_eq_none (pats : List LinePattern)
    (lines : List String)
    (h : ∀ l ∈ lines, ∀ p ∈ pats, p (trimSpace l) = false) :
    firstPatternMatch pats lines = none := by
  induction lines with
  | nil => rfl
  | cons l rest ih =>
    have hl := h l (List.mem_cons_self l rest)
    have hrest : ∀ x ∈ rest, ∀ p ∈ pats, p (trimSpace x) = false :=
      fun x hx => h x (List.mem_cons_of_mem _ hx)
    unfold firstPatternMatch
    by_cases ht : trimSpace l = ""
    · simp only [ht, if_pos rfl]
      exact ih hrest
    · have hany : pats.any (fun p => p (trimSpace l)) = false := by
        simp only [List.any_eq_false]
        intro p hp
        simp [hl p hp]
      simp only [if_neg ht, hany, Bool.false_eq_true, if_false]
      exact ih hrest

/-- The pattern pass returns the first non-empty matching line. -/
theorem firstPatternMatch_first (pats : List LinePattern)
    (pre : List String) (line : String) (post : List String)
    (hpre : ∀ l ∈ pre, trimSpace l = "" ∨ ∀ p ∈ pats, p (trimSpace l) = false)
    (hne : trimSpace line ≠ "")
    (hmatch : ∃ p ∈ pats, p (trimSpace line) = true) :
    firstPatternMatch pats (pre ++ line :: post) = some (trimSpace line) := by
  induction pre with
  | nil =>
    have hany : pats.any (fun p => p (trimSpace line)) = true := by
      simp only [List.any_eq_true]
      obtain ⟨p, hp, hmp⟩ := hmatch
      exact ⟨p, hp, hmp⟩
    simp only [List.nil_append]
    unfold firstPatternMatch
    simp [hne, hany]
  | cons l rest ih =>
    have hrest : ∀ x ∈ rest, trimSpace x = "" ∨ ∀ p ∈ pats, p (trimSpace x) = false :=
      fun x hx => hpre x (List.mem_cons_of_mem _ hx)
    simp only [List.cons_append]
    unfold firstPatternMatch
    rcases hpre l (List.mem_cons_self l rest) with ht | hall
    · simp only [ht, if_pos rfl]
      exact ih hrest
    · by_cases ht : trimSpace l = ""
      · simp only [ht, if_pos rfl]
        exact ih hrest
      · have hany : pats.any (fun p => p (trimSpace l)) = false := by
          simp only [List.any_eq_false]
          intro p hp
          simp [hall p hp]
        simp only [if_neg ht, hany, Bool.false_eq_true, if_false]
        exact ih hrest

/-- The checked tail is the bottom `checkLines` lines (clamped at the top
of the capture). -/
theorem checkedTail_eq_drop (content : String) :
    checkedTail content =
      (splitLines content).drop ((splitLines content).length - checkLines) := by
  unfold checkedTail
  dsimp only
  congr 1
  generalize (splitLines content).length = n
  split <;> omega

/-- On a successful capture, the hard-limit flag is exactly "some hard
pattern matched in the checked tail". -/
theorem scanSession_RateLimited_some (hp wp : List LinePattern) (sess : String)
    (e : Option String) (home acct : String) (content : String) :
    (scanSession hp wp sess e home acct (some content)).RateLimited =
      (firstPatternMatch hp (checkedTail content)).isSome := by
  unfold scanSession
  dsimp only
  cases firstPatternMatch hp (checkedTail content) with
  | some line => rfl
  | none =>
    dsimp only
    split
    · cases firstPatternMatch wp (checkedTail content) <;> rfl
    · rfl

/-- When the hard pass matches, `scanSession` records the match. -/
theorem scanSession_hard_fields (hp wp : List LinePattern) (sess : String)
    (e : Option String) (home acct : String) (content line : String)
    (hfm : firstPatternMatch hp (checkedTail content) = some line) :
    (scanSession hp wp sess e home acct (some content)).RateLimited = true ∧
    (scanSession hp wp sess e home acct (some content)).MatchedLine = line ∧
    (scanSession hp wp sess e home acct (some content)).ResetsAt = parseResetTime line ∧
    (scanSession hp wp sess e home acct (some content)).NearLimit = false := by
  unfold scanSession
  dsimp only
  rw [hfm]
  exact ⟨rfl, rfl, rfl, rfl⟩

/-! ## Claim theorems: scanner -/

/-- C1: for every scanned session and every scanner configuration, the
result (also after usage enrichment) never has both the hard-limit and the
near-limit flag set: the near-limit pass only runs when no hard pattern
matched, and usage promotion requires the hard-limit flag to be unset. -/
theorem scan_hard_limit_excludes_near_limit
    (hardPatterns warningPatterns : List LinePattern) (sess : String)
    (envConfigDir : Option String) (home accountHandle : String)
    (capture : Option String) (usageThreshold : ℚ) (usage : Option UsageInfo)
    (hl : (enrichWithUsage usageThreshold usage
        (scanSession hardPatterns warningPatterns sess envConfigDir home
          accountHandle capture)).RateLimited = true) :
    (enrichWithUsage usageThreshold usage
        (scanSession hardPatterns warningPatterns sess envConfigDir home
          accountHandle capture)).NearLimit = false := by
  set r := scanSession hardPatterns warningPatterns sess envConfigDir home
    accountHandle capture with hr
  rw [enrichWithUsage_RateLimited] at hl
  rw [enrichWithUsage_NearLimit_of_hard _ _ _ hl]
  exact scanSession_not_both _ _ _ _ _ _ _ hl

/-- Witness for C1 at a concrete hard-limited session with 90 percent
utilization and threshold 80. -/
theorem scan_hard_limit_excludes_near_limit_witness :
    (enrichWithUsage 80 (some ⟨some ⟨90, ""⟩, none⟩)
        (scanSession [fun s => s == "LIMIT hit"] [fun _ => true] "gt-x" none ""
          "" (some "LIMIT hit"))).RateLimited = true ∧
    (enrichWithUsage 80 (some ⟨some ⟨90, ""⟩, none⟩)
        (scanSession [fun s => s == "LIMIT hit"] [fun _ => true] "gt-x" none ""
          "" (some "LIMIT hit"))).NearLimit = false :=
  ⟨by decide, scan_hard_limit_excludes_near_limit _ _ _ _ _ _ _ _ _ (by decide)⟩

/-- C5: if every line matching a hard-limit pattern lies above the final
`checkLines` (20) lines of the capture, the session is not reported
hard-limited — only the bottom 20 captured lines are evaluated. -/
theorem scrolled_out_hard_limit_not_reported
    (hardPatterns warningPatterns : List LinePattern) (sess : String)
    (envConfigDir : Option String) (home accountHandle : String)
    (content : String)
    (hscroll : ∀ l ∈ (splitLines content).drop
        ((splitLines content).length - checkLines),
        ∀ p ∈ hardPatterns, p (trimSpace l) = false) :
    (scanSession hardPatterns warningPatterns sess envConfigDir home
        accountHandle (some content)).RateLimited = false := by
  rw [scanSession_RateLimited_some]
  have hnone : firstPatternMatch hardPatterns (checkedTail content) = none := by
    apply firstPatternMatch_eq_none
    rw [checkedTail_eq_drop]
    exact hscroll
  simp [hnone]

/-- Witness for C5: the only matching line sits 21 lines above the bottom,
outside the checked tail. -/
theorem scrolled_out_hard_limit_not_reported_witness :
    (∀ l ∈ (splitLines "LIMIT\na\nb\nc\nd\ne\nf\ng\nh\ni\nj\nk\nl\nm\nn\no\np\nq\nr\ns\nt").drop ((splitLines "LIMIT\na\nb\nc\nd\ne\nf\ng\nh\ni\nj\nk\nl\nm\nn\no\np\nq\nr\ns\nt").length - checkLines),
        ∀ p ∈ [fun s => s == "LIMIT"], p (trimSpace l) = false) ∧
    (scanSession [fun s => s == "LIMIT"] [] "gt-x" none "" ""
        (some "LIMIT\na\nb\nc\nd\ne\nf\ng\nh\ni\nj\nk\nl\nm\nn\no\np\nq\nr\ns\nt")).RateLimited
      = false :=
  ⟨by decide,
   scrolled_out_hard_limit_not_reported _ _ _ _ _ _ _ (by decide)⟩

/-- C6: when some non-empty line of the checked tail matches a hard-limit
pattern, the result is hard-limited, the recorded line is the topmost such
line (earlier lines being blank or non-matching), the reset time is parsed
from that line, and the near-limit flag stays unset. -/
theorem first_hard_match_drives_result
    (hardPatterns warningPatterns : List LinePattern) (sess : String)
    (envConfigDir : Option String) (home accountHandle : String)
    (content : String) (pre : List String) (line : String) (post : List String)
    (htail : checkedTail content = pre ++ line :: post)
    (hpre : ∀ l ∈ pre, trimSpace l = "" ∨
        ∀ p ∈ hardPatterns, p (trimSpace l) = false)
    (hne : trimSpace line ≠ "")
    (hmatch : ∃ p ∈ hardPatterns, p (trimSpace line) = true) :
    (scanSession hardPatterns warningPatterns sess envConfigDir home
        accountHandle (some content)).RateLimited = true ∧
    (scanSession hardPatterns warningPatterns sess envConfigDir home
        accountHandle (some content)).MatchedLine = trimSpace line ∧
    (scanSession hardPatterns warningPatterns sess envConfigDir home
        accountHandle (some content)).ResetsAt = parseResetTime (trimSpace line) ∧
    (scanSession hardPatterns warningPatterns sess envConfigDir home
        accountHandle (some content)).NearLimit = false := by
  have hfm : firstPatternMatch hardPatterns (checkedTail content)
      = some (trimSpace line) := by
    rw [htail]
    exact firstPatternMatch_first _ _ _ _ hpre hne hmatch
  exact scanSession_hard_fields _ _ _ _ _ _ _ _ hfm

/-- Witness for C6: two non-matching lines precede the matching one; the
reset time is extracted from the matched line. -/
theorem first_hard_match_drives_result_witness :
    (scanSession [fun s => "limit".data.isPrefixOf s.data] []
        "gt-x" none "" ""
        (some "ok\n  \nlimit hit · resets 7pm (PST)\nafter")).RateLimited
      = true ∧
    (scanSession [fun s => "limit".data.isPrefixOf s.data] []
        "gt-x" none "" ""
        (some "ok\n  \nlimit hit · resets 7pm (PST)\nafter")).MatchedLine
      = "limit hit · resets 7pm (PST)" ∧
    (scanSession [fun s => "limit".data.isPrefixOf s.data] []
        "gt-x" none "" ""
        (some "ok\n  \nlimit hit · resets 7pm (PST)\nafter")).ResetsAt
      = "7pm (PST)" := by
  have h := first_hard_match_drives_result
    [fun s => "limit".data.isPrefixOf s.data] [] "gt-x" none "" ""
    "ok\n  \nlimit hit · resets 7pm (PST)\nafter"
    ["ok", "  "] "limit hit · resets 7pm (PST)" ["after"]
    (by decide) (by decide) (by decide) (by decide)
  refine ⟨h.1, ?_, ?_⟩
  · rw [h.2.1]; decide
  · rw [h.2.2.1]; decide

/-- C7: enrichment with a usage snapshot sets the near-limit flag exactly
when the result is not already hard-limited or near-limit and the maximum
utilization (0 when no windows are present) meets the threshold; it never
clears a flag; the default threshold is 80. -/
theorem usage_enrichment_promotion_rule (usageThreshold : ℚ) (u : UsageInfo)
    (r : ScanResult) :
    ((enrichWithUsage usageThreshold (some u) r).NearLimit = true ↔
      (r.NearLimit = true ∨
        (r.RateLimited = false ∧ usageThreshold ≤ u.MaxUtilization))) ∧
    (enrichWithUsage usageThreshold (some u) r).RateLimited = r.RateLimited ∧
    (enrichWithUsage usageThreshold (some u) r).Usage = some u ∧
    UsageInfo.MaxUtilization ⟨none, none⟩ = 0 ∧
    DefaultUsageThreshold = 80 := by
  refine ⟨?_, enrichWithUsage_RateLimited _ _ _, ?_, by decide, by decide⟩
  · unfold enrichWithUsage
    dsimp only
    by_cases h1 : r.RateLimited <;> by_cases h2 : r.NearLimit <;>
      by_cases h3 : usageThreshold ≤ u.MaxUtilization <;>
      simp [h1, h2, h3, ge_iff_le]
  · unfold enrichWithUsage
    dsimp only
    split
    · split <;> rfl
    · rfl

/-- C10: the home-relative default config dir is substituted only when the
environment read fails; a successful read is trimmed verbatim (an all-white
space value yields the empty string), and a failed read with no home
directory leaves the field empty. -/
theorem config_dir_env_resolution (hp wp : List LinePattern)
    (sess acct : String) (capture : Option String) :
    (∀ v home, (scanSession hp wp sess (some v) home acct capture).ConfigDir
        = trimSpace v) ∧
    (∀ v home, trimSpace v = "" →
      (scanSession hp wp sess (some v) home acct capture).ConfigDir = "") ∧
    (∀ home, home ≠ "" →
      (scanSession hp wp sess none home acct capture).ConfigDir
        = home ++ "/.claude") ∧
    (scanSession hp wp sess none "" acct capture).ConfigDir = "" := by
  refine ⟨fun v home => ?_, fun v home hv => ?_, fun home hh => ?_, ?_⟩
  · rw [scanSession_ConfigDir_eq]
  · rw [scanSession_ConfigDir_eq]; exact hv
  · rw [scanSession_ConfigDir_eq]; simp [hh]
  · rw [scanSession_ConfigDir_eq]; simp

/-- Witness for C10: an all-blank environment value yields an empty config
dir (no default substituted), and a failed read substitutes the home
default. -/
theorem config_dir_env_resolution_witness :
    (scanSession [] [] "gt-x" (some " \t ") "/home/u" "" none).ConfigDir = "" ∧
    (scanSession [] [] "gt-x" none "/home/u" "" none).ConfigDir
      = "/home/u/.claude" :=
  ⟨(config_dir_env_resolution [] [] "gt-x" "" none).2.1 " \t " "/home/u"
      (by decide),
   (config_dir_env_resolution [] [] "gt-x" "" none).2.2.1 "/home/u"
      (by decide)⟩

/-! ## Helper lemmas about the filesystem model -/

theorem pmem_iff (p : Path) (l : List Path) : pmem p l = true ↔ p ∈ l := by
  simp [pmem, List.any_eq_true]

theorem commonPrefixLen_le_left (a : List String) :
    ∀ b, commonPrefixLen a b ≤ a.length := by
  induction a with
  | nil => intro b; cases b <;> simp [commonPrefixLen]
  | cons x xs ih =>
    intro b
    cases b with
    | nil => simp [commonPrefixLen]
    | cons y ys =>
      unfold commonPrefixLen
      by_cases hxy : x = y
      · rw [if_pos hxy]
        have := ih ys
        simp only [List.length_cons]
        omega
      · rw [if_neg hxy]
        simp

theorem isPrefix_of_commonPrefixLen_eq (a : List String) :
    ∀ b, commonPrefixLen a b = a.length → a <+: b := by
  induction a with
  | nil => intro b _; exact List.nil_prefix
  | cons x xs ih =>
    intro b h
    cases b with
    | nil =>
      simp [commonPrefixLen] at h
    | cons y ys =>
      unfold commonPrefixLen at h
      by_cases hxy : x = y
      · rw [if_pos hxy] at h
        simp only [List.length_cons] at h
        obtain ⟨t, ht⟩ := ih ys (by omega)
        subst hxy
        exact ⟨t, by rw [List.cons_append, ht]⟩
      · rw [if_neg hxy] at h
        simp at h

theorem lookupFile_eq_none_iff (fs : FS) (p : Path) :
    fs.lookupFile p = none ↔ ∀ e ∈ fs.files, e.1 ≠ p := by
  simp [FS.lookupFile, List.find?_eq_none]

theorem lookupLink_eq_none_iff (fs : FS) (p : Path) :
    fs.lookupLink p = none ↔ ∀ e ∈ fs.symlinks, e.1 ≠ p := by
  simp [FS.lookupLink, List.find?_eq_none]

theorem lookupLink_isSome_iff (fs : FS) (p : Path) :
    (fs.lookupLink p).isSome = true ↔ p ∈ fs.symlinks.map (·.1) := by
  simp [FS.lookupLink, List.find?_isSome, List.mem_map]

theorem lookupFile_isSome_iff (fs : FS) (p : Path) :
    (fs.lookupFile p).isSome = true ↔ p ∈ fs.files.map (·.1) := by
  simp [FS.lookupFile, List.find?_isSome, List.mem_map]

theorem lstat_eq_none_iff (fs : FS) (p : Path) :
    fs.lstat p = none ↔ p ∉ fs.allKeys := by
  unfold FS.lstat FS.allKeys
  by_cases h1 : (fs.lookupLink p).isSome
  · rw [if_pos h1]
    have := (lookupLink_isSome_iff fs p).mp h1
    simp [List.mem_append, this]
  · rw [if_neg h1]
    by_cases h2 : (fs.lookupFile p).isSome
    · rw [if_pos h2]
      have := (lookupFile_isSome_iff fs p).mp h2
      simp [List.mem_append, this]
    · rw [if_neg h2]
      by_cases h3 : pmem p fs.dirs
      · rw [if_pos h3]
        have := (pmem_iff p fs.dirs).mp h3
        simp [List.mem_append, this]
      · rw [if_neg h3]
        have hd : p ∉ fs.dirs := fun hm => h3 ((pmem_iff p fs.dirs).mpr hm)
        have hf : p ∉ fs.files.map (·.1) := fun hm =>
          h2 ((lookupFile_isSome_iff fs p).mpr hm)
        have hl : p ∉ fs.symlinks.map (·.1) := fun hm =>
          h1 ((lookupLink_isSome_iff fs p).mpr hm)
        simp [List.mem_append, hd, hf, hl]

theorem lookupLink_eq_none_of_lstat (fs : FS) (p : Path)
    (h : fs.lstat p = none) : fs.lookupLink p = none := by
  unfold FS.lstat at h
  by_cases h1 : (fs.lookupLink p).isSome
  · rw [if_pos h1] at h; exact absurd h (by simp)
  · exact Option.not_isSome_iff_eq_none.mp h1

/-! ### Rename key rewriting -/

theorem renameKey_eq_under (old new q : Path) (h : old <+: q) :
    renameKey old new q = new ++ q.drop old.length := by
  unfold renameKey
  rw [if_pos (List.prefix_iff_eq_take.mp h).symm]

theorem renameKey_eq_outside (old new q : Path) (h : ¬ old <+: q) :
    renameKey old new q = q := by
  unfold renameKey
  rw [if_neg]
  intro hc
  exact h (List.prefix_iff_eq_take.mpr hc.symm)

theorem renameKey_self (old new : Path) : renameKey old new old = new := by
  rw [renameKey_eq_under old new old (List.prefix_refl old)]
  simp

theorem renameKey_roundtrip (old new q : Path) (hq : ¬ new <+: q) :
    renameKey new old (renameKey old new q) = q := by
  by_cases h : old <+: q
  · obtain ⟨t, rfl⟩ := h
    rw [renameKey_eq_under old new _ (List.prefix_append old t),
      List.drop_left,
      renameKey_eq_under new old _ (List.prefix_append new t),
      List.drop_left]
  · rw [renameKey_eq_outside old new q h,
      renameKey_eq_outside new old q hq]

/-! ### Facts about the `.bak` sibling path -/

theorem bakPath_eq (M : Path) (hne : M ≠ []) :
    bakPath M = M.dropLast ++ [M.getLast hne ++ ".bak"] := by
  unfold bakPath
  rw [List.getLast?_eq_getLast M hne]

theorem bakPath_length (M : Path) (hne : M ≠ []) :
    (bakPath M).length = M.length := by
  rw [bakPath_eq M hne]
  have hpos : 0 < M.length := List.length_pos.mpr hne
  simp [List.length_dropLast]
  omega

theorem bakPath_ne (M : Path) (hne : M ≠ []) : bakPath M ≠ M := by
  rw [bakPath_eq M hne]
  intro hc
  have h1 := congrArg List.getLast? hc
  rw [List.getLast?_concat, List.getLast?_eq_getLast M hne] at h1
  have h2 : M.getLast hne ++ ".bak" = M.getLast hne := Option.some.inj h1
  have h3 := congrArg String.length h2
  rw [String.length_append] at h3
  have h4 : (".bak" : String).length = 4 := by decide
  rw [h4] at h3
  omega

theorem not_prefix_bakPath (M : Path) (hne : M ≠ []) :
    ¬ M <+: bakPath M := by
  intro h
  exact bakPath_ne M hne
    (h.eq_of_length (bakPath_length M hne).symm).symm

theorem not_bakPath_prefix (M : Path) (hne : M ≠ []) :
    ¬ bakPath M <+: M := by
  intro h
  exact bakPath_ne M hne (h.eq_of_length (bakPath_length M hne))

/-! ### Rename as a state transition -/

theorem rename_eq_some (fs : FS) (old new : Path)
    (hold : fs.lstat old ≠ none) (hnew : fs.lstat new = none) :
    fs.rename old new = some { fs with
      dirs := fs.dirs.map (renameKey old new),
      files := fs.files.map (fun e => (renameKey old new e.1, e.2)),
      symlinks := fs.symlinks.map (fun e => (renameKey old new e.1, e.2)) } := by
  unfold FS.rename
  rw [if_neg, if_neg]
  · simp [hnew]
  · simp [Option.isNone_iff_eq_none, hold]

theorem removeAll_keys (fs : FS) (p : Path) :
    ∀ q ∈ (fs.removeAll p).allKeys, ¬ p <+: q := by
  intro q hq hpre
  have hTake : underOrEq p q = true := by
    unfold underOrEq
    simp [(List.prefix_iff_eq_take.mp hpre).symm]
  unfold FS.removeAll FS.allKeys at hq
  dsimp only at hq
  rcases List.mem_append.mp hq with hq | hq
  · rcases List.mem_append.mp hq with hq | hq
    · have := (List.mem_filter.mp hq).2
      simp [hTake] at this
    · obtain ⟨e, he, rfl⟩ := List.mem_map.mp hq
      have := (List.mem_filter.mp he).2
      simp [hTake] at this
  · obtain ⟨e, he, rfl⟩ := List.mem_map.mp hq
    have := (List.mem_filter.mp he).2
    simp [hTake] at this

theorem FS.ext' {a b : FS} (h1 : a.dirs = b.dirs) (h2 : a.files = b.files)
    (h3 : a.symlinks = b.symlinks) (h4 : a.denySymlink = b.denySymlink)
    (h5 : a.now = b.now) : a = b := by
  cases a
  cases b
  dsimp at h1 h2 h3 h4 h5
  subst h1 h2 h3 h4 h5
  rfl

theorem map_id_of_eq {α : Type} (l : List α) (f : α → α)
    (h : ∀ a ∈ l, f a = a) : l.map f = l := by
  induction l with
  | nil => rfl
  | cons x xs ih =>
    simp only [List.map_cons, h x (List.mem_cons_self x xs)]
    rw [ih (fun a ha => h a (List.mem_cons_of_mem _ ha))]

theorem find?_eq_none_append {α : Type} {p : α → Bool} {l₁ l₂ : List α}
    (h : l₁.find? p = none) : (l₁ ++ l₂).find? p = l₂.find? p := by
  induction l₁ with
  | nil => simp
  | cons x xs ih =>
    cases hx : p x
    · rw [List.cons_append, List.find?_cons_of_neg _ (by simp [hx])]
      exact ih (by rwa [List.find?_cons_of_neg _ (by simp [hx])] at h)
    · rw [List.find?_cons_of_pos _ hx] at h
      exact absurd h (by simp)

theorem mem_allKeys_dirs (fs : FS) (q : Path) (h : q ∈ fs.dirs) :
    q ∈ fs.allKeys :=
  List.mem_append.mpr (Or.inl (List.mem_append.mpr (Or.inl h)))

theorem mem_allKeys_files (fs : FS) (e : Path × FileData) (h : e ∈ fs.files) :
    e.1 ∈ fs.allKeys :=
  List.mem_append.mpr (Or.inl (List.mem_append.mpr
    (Or.inr (List.mem_map_of_mem _ h))))

theorem mem_allKeys_symlinks (fs : FS) (e : Path × SymTarget)
    (h : e ∈ fs.symlinks) : e.1 ∈ fs.allKeys :=
  List.mem_append.mpr (Or.inr (List.mem_map_of_mem _ h))

/-- The shared first half of both branches of the replacement protocol:
under the stated preconditions the rename to the backup path succeeds, the
parent is still a directory (so `MkdirAll` is a no-op), the original path
is gone, and renaming the backup back restores the filesystem exactly. -/
theorem replace_setup (fs : FS) (M : Path)
    (hne : M ≠ []) (hM : fs.lstat M ≠ none)
    (hfree : ∀ q ∈ fs.allKeys, ¬ bakPath M <+: q)
    (hparent : M.dropLast ∈ fs.dirs) :
    ∃ fs1, fs.rename M (bakPath M) = some fs1 ∧
      fs1.denySymlink = fs.denySymlink ∧
      fs1.lstat M = none ∧
      pmem M.dropLast fs1.dirs = true ∧
      fs1.mkdirAll M.dropLast = some fs1 ∧
      fs1.rename (bakPath M) M = some fs := by
  set B := bakPath M with hB
  have hBfree : B ∉ fs.allKeys := fun hm => hfree B hm (List.prefix_refl B)
  have hlB : fs.lstat B = none := (lstat_eq_none_iff fs B).mpr hBfree
  have hMmem : M ∈ fs.allKeys := by
    by_contra hc
    exact hM ((lstat_eq_none_iff fs M).mpr hc)
  set fs1 : FS := { fs with
      dirs := fs.dirs.map (renameKey M B),
      files := fs.files.map (fun e => (renameKey M B e.1, e.2)),
      symlinks := fs.symlinks.map (fun e => (renameKey M B e.1, e.2)) }
    with hfs1
  have h1 : fs.rename M B = some fs1 := rename_eq_some fs M B hM hlB
  have hkeys1 : fs1.allKeys = fs.allKeys.map (renameKey M B) := by
    rw [hfs1]
    simp [FS.allKeys, List.map_append, List.map_map, Function.comp_def]
  have hM1 : fs1.lstat M = none := by
    apply (lstat_eq_none_iff fs1 M).mpr
    intro hmem
    rw [hkeys1] at hmem
    obtain ⟨q, hq, hrq⟩ := List.mem_map.mp hmem
    by_cases hpq : M <+: q
    · rw [renameKey_eq_under _ _ _ hpq] at hrq
      exact not_bakPath_prefix M hne ⟨q.drop M.length, hrq⟩
    · rw [renameKey_eq_outside _ _ _ hpq] at hrq
      exact hpq (hrq ▸ List.prefix_refl M)
  have hp1 : pmem M.dropLast fs1.dirs = true := by
    apply (pmem_iff _ _).mpr
    have hnp : ¬ M <+: M.dropLast := by
      intro h
      have ha := h.length_le
      rw [List.length_dropLast] at ha
      have hb := List.length_pos.mpr hne
      omega
    rw [hfs1]
    have := List.mem_map_of_mem (renameKey M B) hparent
    rwa [renameKey_eq_outside _ _ _ hnp] at this
  have hmk : fs1.mkdirAll M.dropLast = some fs1 := by
    unfold FS.mkdirAll
    rw [if_pos hp1]
  have hB1mem : B ∈ fs1.allKeys := by
    rw [hkeys1]
    exact List.mem_map.mpr ⟨M, hMmem, renameKey_self M B⟩
  have hB1 : fs1.lstat B ≠ none :=
    fun hcon => ((lstat_eq_none_iff fs1 B).mp hcon) hB1mem
  have hrestore : fs1.rename B M = some fs := by
    rw [rename_eq_some fs1 B M hB1 hM1]
    congr 1
    apply FS.ext'
    · rw [hfs1]
      dsimp only
      rw [List.map_map]
      exact map_id_of_eq _ _ (fun q hq =>
        renameKey_roundtrip M B q (hfree q (mem_allKeys_dirs fs q hq)))
    · rw [hfs1]
      dsimp only
      rw [List.map_map]
      apply map_id_of_eq
      intro e he
      show (renameKey B M (renameKey M B e.1), e.2) = e
      rw [renameKey_roundtrip M B e.1 (hfree e.1 (mem_allKeys_files fs e he))]
    · rw [hfs1]
      dsimp only
      rw [List.map_map]
      apply map_id_of_eq
      intro e he
      show (renameKey B M (renameKey M B e.1), e.2) = e
      rw [renameKey_roundtrip M B e.1 (hfree e.1 (mem_allKeys_symlinks fs e he))]
    · rw [hfs1]
    · rw [hfs1]
  exact ⟨fs1, h1, by rw [hfs1], hM1, hp1, hmk, hrestore⟩

/-- Each entry of the replacement loop contributes exactly one outcome:
either a warning or a created symlink. -/
theorem replaceLoop_counts (sharedDir : Path) (l : List projectEntry) :
    ∀ st : FS × UnifyResult,
      (replaceLoop sharedDir st l).2.SymlinksCreated.length
        + (replaceLoop sharedDir st l).2.Warnings.length
        = st.2.SymlinksCreated.length + st.2.Warnings.length + l.length := by
  induction l with
  | nil => intro st; rfl
  | cons e rest ih =>
    intro st
    obtain ⟨fs0, r0⟩ := st
    unfold replaceLoop
    cases hrep : replaceWithSymlink fs0 e.MemoryDir sharedDir with
    | mk fs2 err =>
      cases err with
      | some msg =>
        dsimp only
        rw [ih]
        simp
        omega
      | none =>
        dsimp only
        rw [ih]
        simp
        omega

/-- C2: the directory-to-symlink conversion protocol.  First conjunct: when
symlink creation fails (injected fault), the backup is renamed back and the
call returns the filesystem in exactly its pre-operation state together
with an error.  Second conjunct: when symlink creation succeeds, the final
state carries the symlink to the shared dir and no `.bak` backup path (nor
anything below one) remains.  Third conjunct: inside `unifyProject`, every
processed entry yields exactly one outcome — a per-account warning on
failure or a created-symlink record — so consolidation continues across
the remaining accounts. -/
theorem backup_restore_replacement_protocol :
    (∀ (fs : FS) (memoryDir sharedDir : Path),
      memoryDir ≠ [] →
      fs.lstat memoryDir ≠ none →
      (∀ q ∈ fs.allKeys, ¬ bakPath memoryDir <+: q) →
      memoryDir.dropLast ∈ fs.dirs →
      memoryDir ∈ fs.denySymlink →
      replaceWithSymlink fs memoryDir sharedDir
        = (fs, some "creating symlink")) ∧
    (∀ (fs : FS) (memoryDir sharedDir : Path),
      memoryDir ≠ [] →
      fs.lstat memoryDir ≠ none →
      (∀ q ∈ fs.allKeys, ¬ bakPath memoryDir <+: q) →
      memoryDir.dropLast ∈ fs.dirs →
      memoryDir ∉ fs.denySymlink →
      (replaceWithSymlink fs memoryDir sharedDir).2 = none ∧
      (replaceWithSymlink fs memoryDir sharedDir).1.lookupLink memoryDir
        = some ⟨true, sharedDir⟩ ∧
      ∀ q ∈ (replaceWithSymlink fs memoryDir sharedDir).1.allKeys,
        ¬ bakPath memoryDir <+: q) ∧
    (∀ (sharedDir : Path) (st : FS × UnifyResult) (l : List projectEntry),
      (replaceLoop sharedDir st l).2.SymlinksCreated.length
        + (replaceLoop sharedDir st l).2.Warnings.length
        = st.2.SymlinksCreated.length + st.2.Warnings.length + l.length) := by
  refine ⟨?_, ?_, fun sharedDir st l => replaceLoop_counts sharedDir l st⟩
  · -- failure branch
    intro fs M sharedDir hne hM hfree hparent hdeny
    obtain ⟨fs1, h1, hden1, hM1, hp1, hmk, hres⟩ :=
      replace_setup fs M hne hM hfree hparent
    have g1 : ¬((fs1.lstat M).isSome = true) := by simp [hM1]
    have g2 : ¬((!pmem M.dropLast fs1.dirs) = true) := by simp [hp1]
    have g3 : pmem M fs1.denySymlink = true := by
      rw [hden1]
      exact (pmem_iff _ _).mpr hdeny
    have hsym : fs1.symlink sharedDir M = none := by
      unfold FS.symlink
      rw [if_neg g1, if_neg g2, if_pos g3]
    unfold replaceWithSymlink
    dsimp only
    rw [h1]
    dsimp only
    rw [hmk]
    dsimp only
    rw [hsym]
    dsimp only
    rw [hres]
  · -- success branch
    intro fs M sharedDir hne hM hfree hparent hnden
    obtain ⟨fs1, h1, hden1, hM1, hp1, hmk, hres⟩ :=
      replace_setup fs M hne hM hfree hparent
    have g1 : ¬((fs1.lstat M).isSome = true) := by simp [hM1]
    have g2 : ¬((!pmem M.dropLast fs1.dirs) = true) := by simp [hp1]
    have g3 : ¬(pmem M fs1.denySymlink = true) := by
      rw [hden1]
      simp [pmem_iff, hnden]
    have hsym : fs1.symlink sharedDir M = some { fs1 with
        symlinks := fs1.symlinks ++ [(M, ⟨true, sharedDir⟩)] } := by
      unfold FS.symlink
      rw [if_neg g1, if_neg g2, if_neg g3]
    have hrw : replaceWithSymlink fs M sharedDir
        = ((FS.removeAll { fs1 with
            symlinks := fs1.symlinks ++ [(M, ⟨true, sharedDir⟩)] }
            (bakPath M)), none) := by
      unfold replaceWithSymlink
      dsimp only
      rw [h1]
      dsimp only
      rw [hmk]
      dsimp only
      rw [hsym]
    rw [hrw]
    refine ⟨rfl, ?_, removeAll_keys _ _⟩
    -- lookupLink of the final state at the memory dir
    have hkeep : (!underOrEq (bakPath M) M) = true := by
      unfold underOrEq
      rw [bakPath_length M hne, List.take_length,
        decide_eq_false ((bakPath_ne M hne).symm :
          ¬ (M = bakPath M))]
      rfl
    have hnolink : ∀ e ∈ fs1.symlinks, e.1 ≠ M :=
      (lookupLink_eq_none_iff fs1 M).mp (lookupLink_eq_none_of_lstat fs1 M hM1)
    have hsyms : (FS.removeAll { fs1 with
        symlinks := fs1.symlinks ++ [(M, ⟨true, sharedDir⟩)] }
        (bakPath M)).symlinks
        = fs1.symlinks.filter
            (fun e => !underOrEq (bakPath M) e.1) ++ [(M, ⟨true, sharedDir⟩)] := by
      unfold FS.removeAll
      dsimp only
      rw [List.filter_append]
      congr 1
      simp [hkeep]
    unfold FS.lookupLink
    rw [hsyms]
    rw [find?_eq_none_append (List.find?_eq_none.mpr (fun e he => by
      have hmem := (List.mem_filter.mp he).1
      simp [hnolink e hmem]))]
    simp

/-- Witness for C2: a two-account project in which symlink creation is
denied for the first account and allowed for the second: the first
account's directory is exactly restored and warned about, the second is
linked, the loop processes both, and no `.bak` path remains. -/
theorem backup_restore_replacement_protocol_witness :
    (replaceWithSymlink
      ⟨[["a"], ["a", "dev1"], ["a", "dev1", "memory"]],
       [(["a", "dev1", "memory", "MEMORY.md"], ⟨"x", 1⟩)],
       [], [["a", "dev1", "memory"]], 7⟩
      ["a", "dev1", "memory"] ["s", "p"]
      = (⟨[["a"], ["a", "dev1"], ["a", "dev1", "memory"]],
          [(["a", "dev1", "memory", "MEMORY.md"], ⟨"x", 1⟩)],
          [], [["a", "dev1", "memory"]], 7⟩, some "creating symlink")) ∧
    ((replaceWithSymlink
      ⟨[["a"], ["a", "dev2"], ["a", "dev2", "memory"]],
       [(["a", "dev2", "memory", "MEMORY.md"], ⟨"y", 2⟩)],
       [], [], 7⟩
      ["a", "dev2", "memory"] ["s", "p"]).2 = none ∧
     (replaceWithSymlink
      ⟨[["a"], ["a", "dev2"], ["a", "dev2", "memory"]],
       [(["a", "dev2", "memory", "MEMORY.md"], ⟨"y", 2⟩)],
       [], [], 7⟩
      ["a", "dev2", "memory"] ["s", "p"]).1.lookupLink
        ["a", "dev2", "memory"] = some ⟨true, ["s", "p"]⟩) :=
  ⟨backup_restore_replacement_protocol.1 _ _ _ (by decide) (by decide)
      (by decide) (by decide) (by decide),
   (backup_restore_replacement_protocol.2.1 _ _ _ (by decide) (by decide)
      (by decide) (by decide) (by decide)).1,
   (backup_restore_replacement_protocol.2.1 _ _ _ (by decide) (by decide)
      (by decide) (by decide) (by decide)).2.1⟩

/-! ### Reading and writing single files -/

theorem resolve_no_link (fs : FS) (p : Path) (h : fs.lookupLink p = none) :
    FS.resolve 40 fs p = some p := by
  have heq : FS.resolve 40 fs p =
      (match fs.lookupLink p with
       | some t => FS.resolve 39 fs (resolveTarget p t)
       | none => some p) := rfl
  rw [heq, h]

theorem statNode_canonical (fs : FS) (p : Path)
    (hlink : fs.lookupLink p = none) (hdir : p ∉ fs.dirs) :
    fs.statNode p = (fs.lookupFile p).map (fun fd => (fd.modTime, fd.size)) := by
  unfold FS.statNode
  rw [resolve_no_link fs p hlink]
  cases hf : fs.lookupFile p
  · have hp : pmem p fs.dirs = false := by
      rw [← Bool.not_eq_true]
      intro hc
      exact hdir ((pmem_iff _ _).mp hc)
    simp [hp, hf]
  · simp [hf]

theorem readFile_no_link (fs : FS) (p : Path)
    (hlink : fs.lookupLink p = none) :
    fs.readFile p = (fs.lookupFile p).map (·.content) := by
  unfold FS.readFile
  rw [resolve_no_link fs p hlink]
  rfl

theorem writeFile_canonical (fs : FS) (sharedDir : Path) (nm : String)
    (data : String)
    (hlink : fs.lookupLink (sharedDir ++ [nm]) = none)
    (hdir : (sharedDir ++ [nm]) ∉ fs.dirs)
    (hpar : sharedDir ∈ fs.dirs) :
    fs.writeFile (sharedDir ++ [nm]) data = some { fs with
      files := fs.files.filter (fun e => !decide (e.1 = sharedDir ++ [nm]))
        ++ [(sharedDir ++ [nm], ⟨data, fs.now⟩)] } := by
  unfold FS.writeFile
  rw [resolve_no_link _ _ hlink]
  dsimp only
  rw [if_neg, if_neg]
  · have : (sharedDir ++ [nm]).dropLast = sharedDir := List.dropLast_concat
    rw [this]
    simp [(pmem_iff _ _).mpr hpar]
  · intro hc
    exact hdir ((pmem_iff _ _).mp hc)

theorem copyFile_canonical (fs : FS) (src : Path) (sharedDir : Path)
    (nm : String) (data : String)
    (hlink : fs.lookupLink (sharedDir ++ [nm]) = none)
    (hdir : (sharedDir ++ [nm]) ∉ fs.dirs)
    (hpar : sharedDir ∈ fs.dirs)
    (hr : fs.readFile src = some data) :
    copyFile fs src (sharedDir ++ [nm]) = some { fs with
      files := fs.files.filter (fun e => !decide (e.1 = sharedDir ++ [nm]))
        ++ [(sharedDir ++ [nm], ⟨data, fs.now⟩)] } := by
  unfold copyFile
  rw [hr]
  exact writeFile_canonical fs sharedDir nm data hlink hdir hpar

theorem find?_append_of_none_right {α : Type} {p : α → Bool} {l₁ l₂ : List α}
    (h : l₂.find? p = none) : (l₁ ++ l₂).find? p = l₁.find? p := by
  induction l₁ with
  | nil => simpa using h
  | cons x xs ih =>
    cases hx : p x
    · rw [List.cons_append, List.find?_cons_of_neg _ (by simp [hx]),
        List.find?_cons_of_neg _ (by simp [hx]), ih]
    · rw [List.cons_append, List.find?_cons_of_pos _ hx,
        List.find?_cons_of_pos _ hx]

theorem find?_filter_subpred {α : Type} {p r : α → Bool} {l : List α}
    (h : ∀ x, p x = true → r x = true) : (l.filter r).find? p = l.find? p := by
  induction l with
  | nil => rfl
  | cons x xs ih =>
    cases hr : r x
    · have hp : p x = false := by
        cases hpx : p x
        · rfl
        · rw [h x hpx] at hr
          exact absurd hr (by simp)
      rw [List.filter_cons_of_neg (by simp [hr]),
        List.find?_cons_of_neg _ (by simp [hp]), ih]
    · rw [List.filter_cons_of_pos (by simp [hr])]
      cases hp : p x
      · rw [List.find?_cons_of_neg _ (by simp [hp]),
          List.find?_cons_of_neg _ (by simp [hp]), ih]
      · rw [List.find?_cons_of_pos _ hp, List.find?_cons_of_pos _ hp]

theorem lookupFile_write_self (fs : FS) (q : Path) (d : FileData) :
    FS.lookupFile { fs with
      files := fs.files.filter (fun e => !decide (e.1 = q)) ++ [(q, d)] } q
      = some d := by
  unfold FS.lookupFile
  dsimp only
  rw [find?_eq_none_append]
  · simp
  · apply List.find?_eq_none.mpr
    intro e he
    have h2 := (List.mem_filter.mp he).2
    simp at h2 ⊢
    exact h2

theorem lookupFile_write_other (fs : FS) (q : Path) (d : FileData) (k : Path)
    (hk : k ≠ q) :
    FS.lookupFile { fs with
      files := fs.files.filter (fun e => !decide (e.1 = q)) ++ [(q, d)] } k
      = fs.lookupFile k := by
  unfold FS.lookupFile
  dsimp only
  rw [find?_append_of_none_right (by simp [Ne.symm hk]),
    find?_filter_subpred (fun x hx => by
      simp at hx ⊢
      rw [hx]
      exact hk)]

/-! ### The summary-candidate fold is a lexicographic maximum -/

theorem candLE_refl (b : memoryCandidate) : candLE b.modTime b.size b :=
  Or.inr ⟨rfl, le_refl _⟩

theorem candLE_trans (m : Int) (s : Nat) (b b' : memoryCandidate)
    (h1 : candLE m s b) (h2 : candLE b.modTime b.size b') : candLE m s b' := by
  unfold candLE at *
  omega

theorem mergeScanFile_mono (fs : FS) (e : projectEntry)
    (st : Option memoryCandidate × List (String × Path)) (f : DirEnt)
    (b : memoryCandidate) (hb : st.1 = some b) :
    ∃ b', (mergeScanFile fs e st f).1 = some b' ∧
      candLE b.modTime b.size b' := by
  unfold mergeScanFile
  by_cases hk : f.kind = NodeKind.dir
  · rw [if_pos hk]
    exact ⟨b, hb, candLE_refl b⟩
  · rw [if_neg hk]
    dsimp only
    cases hinfo : fs.entryInfo (e.MemoryDir ++ [f.name]) with
    | none => exact ⟨b, hb, candLE_refl b⟩
    | some info =>
      dsimp only
      by_cases hn : f.name = "MEMORY.md"
      · rw [if_pos hn]
        rw [hb]
        dsimp only
        by_cases hw : info.1 > b.modTime ∨
            (info.1 = b.modTime ∧ info.2 > b.size)
        · rw [if_pos hw]
          refine ⟨_, rfl, ?_⟩
          unfold candLE
          dsimp only
          omega
        · rw [if_neg hw]
          exact ⟨b, rfl, candLE_refl b⟩
      · rw [if_neg hn]
        by_cases hf : (st.2.find? (fun e => decide (e.1 = f.name))).isSome
        · rw [if_pos hf]
          exact ⟨b, hb, candLE_refl b⟩
        · rw [if_neg hf]
          exact ⟨b, hb, candLE_refl b⟩

theorem files_foldl_mono (fs : FS) (e : projectEntry) (files : List DirEnt) :
    ∀ (st : Option memoryCandidate × List (String × Path))
      (b : memoryCandidate), st.1 = some b →
    ∃ b', (files.foldl (mergeScanFile fs e) st).1 = some b' ∧
      candLE b.modTime b.size b' := by
  induction files with
  | nil => intro st b hb; exact ⟨b, hb, candLE_refl b⟩
  | cons f rest ih =>
    intro st b hb
    rw [List.foldl_cons]
    obtain ⟨b1, hb1, hle1⟩ := mergeScanFile_mono fs e st f b hb
    obtain ⟨b', hb', hle'⟩ := ih _ b1 hb1
    exact ⟨b', hb', candLE_trans _ _ _ _ hle1 hle'⟩

theorem mergeScanEntry_mono (fs : FS)
    (st : Option memoryCandidate × List (String × Path) × List String)
    (en : projectEntry) (b : memoryCandidate) (hb : st.1 = some b) :
    ∃ b', (mergeScanEntry fs st en).1 = some b' ∧
      candLE b.modTime b.size b' := by
  unfold mergeScanEntry
  cases hrd : fs.readDir en.MemoryDir with
  | none => exact ⟨b, hb, candLE_refl b⟩
  | some files =>
    dsimp only
    exact files_foldl_mono fs en files (st.1, st.2.1) b hb

theorem entries_foldl_mono (fs : FS) (entries : List projectEntry) :
    ∀ (st : Option memoryCandidate × List (String × Path) × List String)
      (b : memoryCandidate), st.1 = some b →
    ∃ b', (entries.foldl (mergeScanEntry fs) st).1 = some b' ∧
      candLE b.modTime b.size b' := by
  induction entries with
  | nil => intro st b hb; exact ⟨b, hb, candLE_refl b⟩
  | cons en rest ih =>
    intro st b hb
    rw [List.foldl_cons]
    obtain ⟨b1, hb1, hle1⟩ := mergeScanEntry_mono fs st en b hb
    obtain ⟨b', hb', hle'⟩ := ih _ b1 hb1
    exact ⟨b', hb', candLE_trans _ _ _ _ hle1 hle'⟩

theorem mergeScanFile_covers (fs : FS) (e : projectEntry)
    (st : Option memoryCandidate × List (String × Path)) (f : DirEnt)
    (i : Int × Nat)
    (hkind : f.kind ≠ NodeKind.dir) (hname : f.name = "MEMORY.md")
    (hinfo : fs.entryInfo (e.MemoryDir ++ [f.name]) = some i) :
    ∃ b', (mergeScanFile fs e st f).1 = some b' ∧ candLE i.1 i.2 b' := by
  unfold mergeScanFile
  rw [if_neg hkind]
  dsimp only
  rw [hinfo]
  dsimp only
  rw [if_pos hname]
  cases hst : st.1 with
  | none =>
    exact ⟨_, rfl, Or.inr ⟨rfl, le_refl _⟩⟩
  | some b =>
    dsimp only
    by_cases hw : i.1 > b.modTime ∨ (i.1 = b.modTime ∧ i.2 > b.size)
    · rw [if_pos hw]
      exact ⟨_, rfl, Or.inr ⟨rfl, le_refl _⟩⟩
    · rw [if_neg hw]
      refine ⟨b, rfl, ?_⟩
      unfold candLE
      omega

theorem files_foldl_covers (fs : FS) (e : projectEntry) (files : List DirEnt)
    (f : DirEnt) (hf : f ∈ files) (i : Int × Nat)
    (hkind : f.kind ≠ NodeKind.dir) (hname : f.name = "MEMORY.md")
    (hinfo : fs.entryInfo (e.MemoryDir ++ [f.name]) = some i) :
    ∀ st, ∃ b', (files.foldl (mergeScanFile fs e) st).1 = some b' ∧
      candLE i.1 i.2 b' := by
  intro st
  obtain ⟨l1, l2, rfl⟩ := List.append_of_mem hf
  rw [List.foldl_append, List.foldl_cons]
  obtain ⟨b1, hb1, hle1⟩ :=
    mergeScanFile_covers fs e (l1.foldl (mergeScanFile fs e) st) f i
      hkind hname hinfo
  obtain ⟨b', hb', hle'⟩ := files_foldl_mono fs e l2 _ b1 hb1
  exact ⟨b', hb', candLE_trans _ _ _ _ hle1 hle'⟩

theorem mergeScan_covers (fs : FS) (entries : List projectEntry)
    (e : projectEntry) (he : e ∈ entries) (fl : List DirEnt)
    (hrd : fs.readDir e.MemoryDir = some fl) (f : DirEnt) (hf : f ∈ fl)
    (i : Int × Nat)
    (hkind : f.kind ≠ NodeKind.dir) (hname : f.name = "MEMORY.md")
    (hinfo : fs.entryInfo (e.MemoryDir ++ [f.name]) = some i) :
    ∃ b', (mergeScan fs entries).1 = some b' ∧ candLE i.1 i.2 b' := by
  unfold mergeScan
  obtain ⟨l1, l2, rfl⟩ := List.append_of_mem he
  rw [List.foldl_append, List.foldl_cons]
  have hentry : ∃ b1, (mergeScanEntry fs
      (l1.foldl (mergeScanEntry fs) (none, [], [])) e).1 = some b1 ∧
      candLE i.1 i.2 b1 := by
    unfold mergeScanEntry
    rw [hrd]
    dsimp only
    exact files_foldl_covers fs e fl f hf i hkind hname hinfo _
  obtain ⟨b1, hb1, hle1⟩ := hentry
  obtain ⟨b', hb', hle'⟩ := entries_foldl_mono fs l2 _ b1 hb1
  exact ⟨b', hb', candLE_trans _ _ _ _ hle1 hle'⟩

/-! ### The copy loop for non-summary files -/

theorem lookupLink_congr (a b : FS) (h : a.symlinks = b.symlinks) (p : Path) :
    a.lookupLink p = b.lookupLink p := by
  unfold FS.lookupLink
  rw [h]

theorem singleton_key_ne (sharedDir : Path) (nm nm' : String)
    (h : nm ≠ nm') : sharedDir ++ [nm] ≠ sharedDir ++ [nm'] := by
  intro hc
  have := List.append_cancel_left hc
  simp at this
  exact h this

/-- A canonical file present before the copy loop for non-summary files is
still present, unchanged, afterwards: the loop only writes a name whose
canonical stat is absent. -/
theorem copyOtherFiles_keep (fs : FS) (sharedDir : Path)
    (hshared : sharedDir ∈ fs.dirs)
    (hcanon : ∀ nm : String, fs.lookupLink (sharedDir ++ [nm]) = none ∧
        (sharedDir ++ [nm]) ∉ fs.dirs) :
    ∀ (l : List (String × Path)) (fsi : FS),
      fsi.dirs = fs.dirs → fsi.symlinks = fs.symlinks →
      ∀ (nm : String) (fd : FileData),
        fsi.lookupFile (sharedDir ++ [nm]) = some fd →
        (copyOtherFiles sharedDir fsi l).1.lookupFile (sharedDir ++ [nm])
          = some fd := by
  intro l
  induction l with
  | nil =>
    intro fsi hd hs nm fd hf
    exact hf
  | cons pr rest ih =>
    intro fsi hd hs nm fd hf
    obtain ⟨nm', src'⟩ := pr
    unfold copyOtherFiles
    dsimp only
    cases hstat : fsi.statNode (sharedDir ++ [nm']) with
    | some v => exact ih fsi hd hs nm fd hf
    | none =>
      cases hcopy : copyFile fsi src' (sharedDir ++ [nm']) with
      | none => exact hf
      | some fs2 =>
        have hlink' : fsi.lookupLink (sharedDir ++ [nm']) = none :=
          (lookupLink_congr fsi fs hs _).trans ((hcanon nm').1)
        have hdir' : (sharedDir ++ [nm']) ∉ fsi.dirs := by
          rw [hd]
          exact (hcanon nm').2
        have hpar' : sharedDir ∈ fsi.dirs := by
          rw [hd]
          exact hshared
        cases hread : fsi.readFile src' with
        | none =>
          exfalso
          unfold copyFile at hcopy
          rw [hread] at hcopy
          exact Option.noConfusion hcopy
        | some data' =>
          have hfc := copyFile_canonical fsi src' sharedDir nm' data'
            hlink' hdir' hpar' hread
          rw [hfc] at hcopy
          obtain rfl := Option.some.inj hcopy
          by_cases heq : nm = nm'
          · exfalso
            subst heq
            have hsome : fsi.statNode (sharedDir ++ [nm])
                = some (fd.modTime, fd.size) := by
              rw [statNode_canonical fsi _ hlink' hdir', hf]
              rfl
            rw [hstat] at hsome
            exact Option.noConfusion hsome
          · have hk : sharedDir ++ [nm] ≠ sharedDir ++ [nm'] :=
              singleton_key_ne sharedDir nm nm' heq
            apply ih
            · exact hd
            · exact hs
            · rw [lookupFile_write_other fsi _ _ _ hk]
              exact hf

/-- The copy loop writes the absent name `nm` from its recorded source,
and the written content survives the rest of the loop. -/
theorem copyOtherFiles_write (fs : FS) (sharedDir : Path)
    (hshared : sharedDir ∈ fs.dirs)
    (hcanon : ∀ nm : String, fs.lookupLink (sharedDir ++ [nm]) = none ∧
        (sharedDir ++ [nm]) ∉ fs.dirs) :
    ∀ (l : List (String × Path)) (fsi : FS),
      fsi.dirs = fs.dirs → fsi.symlinks = fs.symlinks → fsi.now = fs.now →
      ∀ (nm : String) (src : Path) (data : String),
        ((l.find? (fun e => decide (e.1 = nm))).map (·.2)) = some src →
        fsi.lookupFile (sharedDir ++ [nm]) = none →
        src.dropLast ≠ sharedDir →
        fsi.lookupLink src = none →
        fsi.readFile src = some data →
        (copyOtherFiles sharedDir fsi l).2 = true →
        (copyOtherFiles sharedDir fsi l).1.lookupFile (sharedDir ++ [nm])
          = some ⟨data, fs.now⟩ := by
  intro l
  induction l with
  | nil =>
    intro fsi hd hs hn nm src data hfind
    simp at hfind
  | cons pr rest ih =>
    intro fsi hd hs hn nm src data hfind habsent hsrcd hsrcl hsrcr hok
    obtain ⟨nm', src'⟩ := pr
    unfold copyOtherFiles at hok ⊢
    dsimp only at hok ⊢
    by_cases hmatch : nm' = nm
    · subst hmatch
      have hsrc' : src = src' := by
        rw [List.find?_cons_of_pos _ (by simp)] at hfind
        simpa using hfind.symm
      subst hsrc'
      have hlink' : fsi.lookupLink (sharedDir ++ [nm']) = none :=
        (lookupLink_congr fsi fs hs _).trans ((hcanon nm').1)
      have hdir' : (sharedDir ++ [nm']) ∉ fsi.dirs := by
        rw [hd]
        exact (hcanon nm').2
      have hpar' : sharedDir ∈ fsi.dirs := by
        rw [hd]
        exact hshared
      have hstat : fsi.statNode (sharedDir ++ [nm']) = none := by
        rw [statNode_canonical fsi _ hlink' hdir', habsent]
        rfl
      rw [hstat] at hok ⊢
      dsimp only at hok ⊢
      have hfc := copyFile_canonical fsi src sharedDir nm' data
        hlink' hdir' hpar' hsrcr
      rw [hfc] at hok ⊢
      dsimp only at hok ⊢
      have hself := lookupFile_write_self fsi (sharedDir ++ [nm'])
        ⟨data, fsi.now⟩
      have hself2 : FS.lookupFile { fsi with
          files := fsi.files.filter
              (fun e => !decide (e.1 = sharedDir ++ [nm']))
            ++ [(sharedDir ++ [nm'], ⟨data, fsi.now⟩)] } (sharedDir ++ [nm'])
          = some ⟨data, fs.now⟩ := by
        rw [← hn]
        exact hself
      apply copyOtherFiles_keep fs sharedDir hshared hcanon rest
      · exact hd
      · exact hs
      · exact hself2
    · have hfind' : (rest.find? (fun e => decide (e.1 = nm))).map (·.2)
          = some src := by
        rw [List.find?_cons_of_neg _ (by simp [hmatch])] at hfind
        exact hfind
      cases hstat : fsi.statNode (sharedDir ++ [nm']) with
      | some v =>
        rw [hstat] at hok
        dsimp only at hok ⊢
        exact ih fsi hd hs hn nm src data hfind' habsent hsrcd hsrcl hsrcr hok
      | none =>
        rw [hstat] at hok
        dsimp only at hok ⊢
        cases hcopy : copyFile fsi src' (sharedDir ++ [nm']) with
        | none =>
          rw [hcopy] at hok
          simp at hok
        | some fs2 =>
          rw [hcopy] at hok
          dsimp only at hok ⊢
          have hlink'' : fsi.lookupLink (sharedDir ++ [nm']) = none :=
            (lookupLink_congr fsi fs hs _).trans ((hcanon nm').1)
          have hdir'' : (sharedDir ++ [nm']) ∉ fsi.dirs := by
            rw [hd]
            exact (hcanon nm').2
          have hpar'' : sharedDir ∈ fsi.dirs := by
            rw [hd]
            exact hshared
          cases hread : fsi.readFile src' with
          | none =>
            exfalso
            unfold copyFile at hcopy
            rw [hread] at hcopy
            exact Option.noConfusion hcopy
          | some data' =>
            have hfc := copyFile_canonical fsi src' sharedDir nm' data'
              hlink'' hdir'' hpar'' hread
            rw [hfc] at hcopy
            obtain rfl := Option.some.inj hcopy
            have hkey : sharedDir ++ [nm] ≠ sharedDir ++ [nm'] :=
              singleton_key_ne sharedDir nm nm' (fun hc => hmatch hc.symm)
            have hsrc_ne : src ≠ sharedDir ++ [nm'] := by
              intro hc
              apply hsrcd
              rw [hc]
              exact List.dropLast_concat
            apply ih
            · exact hd
            · exact hs
            · exact hn
            · exact hfind'
            · rw [lookupFile_write_other fsi _ _ _ hkey]
              exact habsent
            · exact hsrcd
            · exact hsrcl
            · have hlr : FS.lookupLink { fsi with
                  files := fsi.files.filter
                      (fun e => !decide (e.1 = sharedDir ++ [nm']))
                    ++ [(sharedDir ++ [nm'], ⟨data', fsi.now⟩)] } src
                  = none := hsrcl
              rw [readFile_no_link _ src hlr,
                lookupFile_write_other fsi _ _ src hsrc_ne,
                ← readFile_no_link fsi src hsrcl]
              exact hsrcr
            · exact hok

/-- C3: the two-tier merge policy of `mergeMemoryContent`, on a tidy state
(the shared dir is a real directory whose entries are plain files).
Conjuncts: (a) the selected `MEMORY.md` candidate has the most recent
modification time, ties broken by larger size, over every candidate in
every readable source directory; (b) a pre-existing canonical `MEMORY.md`
that is newer — or equally new and at least as large — is left untouched;
(c) otherwise the best candidate is copied over it; (d) a non-summary file
already present in the canonical directory is never overwritten; (e) a
non-summary name absent from the canonical directory is copied from the
source recorded for it (the first seen). -/
theorem merge_policy_two_tier (fs : FS) (entries : List projectEntry)
    (sharedDir : Path) (r0 : UnifyResult)
    (hshared : sharedDir ∈ fs.dirs)
    (hcanon : ∀ nm : String, fs.lookupLink (sharedDir ++ [nm]) = none ∧
        (sharedDir ++ [nm]) ∉ fs.dirs) :
    (∀ b, (mergeScan fs entries).1 = some b →
      ∀ e ∈ entries, ∀ fl, fs.readDir e.MemoryDir = some fl →
      ∀ f ∈ fl, f.name = "MEMORY.md" → f.kind ≠ NodeKind.dir →
      ∀ i, fs.entryInfo (e.MemoryDir ++ ["MEMORY.md"]) = some i →
      (i.1 < b.modTime ∨ (i.1 = b.modTime ∧ i.2 ≤ b.size))) ∧
    (∀ b, (mergeScan fs entries).1 = some b →
      ∀ exfd, fs.lookupFile (sharedDir ++ ["MEMORY.md"]) = some exfd →
      (exfd.modTime > b.modTime ∨
        (exfd.modTime = b.modTime ∧ exfd.size ≥ b.size)) →
      (mergeMemoryContent fs entries sharedDir r0).1.lookupFile
        (sharedDir ++ ["MEMORY.md"]) = some exfd) ∧
    (∀ b, (mergeScan fs entries).1 = some b →
      (∀ exfd, fs.lookupFile (sharedDir ++ ["MEMORY.md"]) = some exfd →
        (b.modTime > exfd.modTime ∨
          (b.modTime = exfd.modTime ∧ b.size > exfd.size))) →
      ∀ data, fs.readFile b.path = some data →
      (mergeMemoryContent fs entries sharedDir r0).1.lookupFile
        (sharedDir ++ ["MEMORY.md"]) = some ⟨data, fs.now⟩) ∧
    (∀ nm fd, nm ≠ "MEMORY.md" →
      fs.lookupFile (sharedDir ++ [nm]) = some fd →
      (mergeMemoryContent fs entries sharedDir r0).1.lookupFile
        (sharedDir ++ [nm]) = some fd) ∧
    (∀ nm src data, nm ≠ "MEMORY.md" →
      fs.lookupFile (sharedDir ++ [nm]) = none →
      (((mergeScan fs entries).2.1.find?
          (fun e => decide (e.1 = nm))).map (·.2)) = some src →
      src.dropLast ≠ sharedDir →
      fs.lookupLink src = none →
      fs.readFile src = some data →
      (mergeMemoryContent fs entries sharedDir r0).2.2 = true →
      (mergeMemoryContent fs entries sharedDir r0).1.lookupFile
        (sharedDir ++ [nm]) = some ⟨data, fs.now⟩) := by
  have hlinkM := (hcanon "MEMORY.md").1
  have hdirM := (hcanon "MEMORY.md").2
  refine ⟨?_, ?_, ?_, ?_, ?_⟩
  · -- (a) maximality of the selected candidate
    intro b hbest e he fl hrd f hf hname hkind i hinfo
    obtain ⟨b', hb', hle⟩ := mergeScan_covers fs entries e he fl hrd f hf i
      hkind hname (by rw [hname]; exact hinfo)
    rw [hbest] at hb'
    obtain rfl : b' = b := (Option.some.inj hb').symm
    exact hle
  · -- (b) an existing newer canonical summary survives
    intro b hbest exfd hex hwin
    have hstatM : fs.statNode (sharedDir ++ ["MEMORY.md"])
        = some (exfd.modTime, exfd.size) := by
      rw [statNode_canonical fs _ hlinkM hdirM, hex]
      rfl
    unfold mergeMemoryContent
    try dsimp only
    rw [hbest]
    try dsimp only
    rw [hstatM]
    try dsimp only
    rw [if_pos hwin]
    try dsimp only
    exact copyOtherFiles_keep fs sharedDir hshared hcanon _ fs rfl rfl
      "MEMORY.md" exfd hex
  · -- (c) a strictly better candidate is copied over
    intro b hbest hstrict data hread
    have hfc := copyFile_canonical fs b.path sharedDir "MEMORY.md" data
      hlinkM hdirM hshared hread
    unfold mergeMemoryContent
    try dsimp only
    rw [hbest]
    try dsimp only
    cases hex : fs.lookupFile (sharedDir ++ ["MEMORY.md"]) with
    | none =>
      have hstatM : fs.statNode (sharedDir ++ ["MEMORY.md"]) = none := by
        rw [statNode_canonical fs _ hlinkM hdirM, hex]
        rfl
      rw [hstatM]
      try dsimp only
      rw [hfc]
      try dsimp only
      apply copyOtherFiles_keep fs sharedDir hshared hcanon _
      · rfl
      · rfl
      · exact lookupFile_write_self fs (sharedDir ++ ["MEMORY.md"])
          ⟨data, fs.now⟩
    | some exfd =>
      have hstatM : fs.statNode (sharedDir ++ ["MEMORY.md"])
          = some (exfd.modTime, exfd.size) := by
        rw [statNode_canonical fs _ hlinkM hdirM, hex]
        rfl
      have hcond : ¬(exfd.modTime > b.modTime ∨
          (exfd.modTime = b.modTime ∧ exfd.size ≥ b.size)) := by
        have := hstrict exfd hex
        omega
      rw [hstatM]
      try dsimp only
      rw [if_neg hcond]
      try dsimp only
      rw [hfc]
      try dsimp only
      apply copyOtherFiles_keep fs sharedDir hshared hcanon _
      · rfl
      · rfl
      · exact lookupFile_write_self fs (sharedDir ++ ["MEMORY.md"])
          ⟨data, fs.now⟩
  · -- (d) existing non-summary canonical files are never overwritten
    intro nm fd hnm hfd
    have hkM : sharedDir ++ [nm] ≠ sharedDir ++ ["MEMORY.md"] :=
      singleton_key_ne sharedDir nm "MEMORY.md" hnm
    unfold mergeMemoryContent
    try dsimp only
    cases hbest : (mergeScan fs entries).1 with
    | none =>
      try dsimp only
      exact copyOtherFiles_keep fs sharedDir hshared hcanon _ fs rfl rfl
        nm fd hfd
    | some b =>
      try dsimp only
      cases hex : fs.lookupFile (sharedDir ++ ["MEMORY.md"]) with
      | some exfd =>
        have hstatM : fs.statNode (sharedDir ++ ["MEMORY.md"])
            = some (exfd.modTime, exfd.size) := by
          rw [statNode_canonical fs _ hlinkM hdirM, hex]
          rfl
        rw [hstatM]
        try dsimp only
        by_cases hwin : exfd.modTime > b.modTime ∨
            (exfd.modTime = b.modTime ∧ exfd.size ≥ b.size)
        · rw [if_pos hwin]
          try dsimp only
          exact copyOtherFiles_keep fs sharedDir hshared hcanon _ fs rfl rfl
            nm fd hfd
        · rw [if_neg hwin]
          try dsimp only
          cases hread : fs.readFile b.path with
          | none =>
            have hcf : copyFile fs b.path (sharedDir ++ ["MEMORY.md"])
                = none := by
              unfold copyFile
              rw [hread]
            rw [hcf]
            try dsimp only
            exact hfd
          | some data =>
            rw [copyFile_canonical fs b.path sharedDir "MEMORY.md" data
              hlinkM hdirM hshared hread]
            try dsimp only
            apply copyOtherFiles_keep fs sharedDir hshared hcanon _
            · rfl
            · rfl
            · rw [lookupFile_write_other fs _ _ _ hkM]
              exact hfd
      | none =>
        have hstatM : fs.statNode (sharedDir ++ ["MEMORY.md"]) = none := by
          rw [statNode_canonical fs _ hlinkM hdirM, hex]
          rfl
        rw [hstatM]
        try dsimp only
        cases hread : fs.readFile b.path with
        | none =>
          have hcf : copyFile fs b.path (sharedDir ++ ["MEMORY.md"])
              = none := by
            unfold copyFile
            rw [hread]
          rw [hcf]
          try dsimp only
          exact hfd
        | some data =>
          rw [copyFile_canonical fs b.path sharedDir "MEMORY.md" data
            hlinkM hdirM hshared hread]
          try dsimp only
          apply copyOtherFiles_keep fs sharedDir hshared hcanon _
          · rfl
          · rfl
          · rw [lookupFile_write_other fs _ _ _ hkM]
            exact hfd
  · -- (e) an absent non-summary name is copied from its recorded source
    intro nm src data hnm habsent hfind hsrcd hsrcl hsrcr hok
    have hkM : sharedDir ++ [nm] ≠ sharedDir ++ ["MEMORY.md"] :=
      singleton_key_ne sharedDir nm "MEMORY.md" hnm
    have hsrc_neM : src ≠ sharedDir ++ ["MEMORY.md"] := by
      intro hc
      apply hsrcd
      rw [hc]
      exact List.dropLast_concat
    unfold mergeMemoryContent at hok ⊢
    try dsimp only at hok ⊢
    cases hbest : (mergeScan fs entries).1 with
    | none =>
      rw [hbest] at hok
      try dsimp only at hok ⊢
      exact copyOtherFiles_write fs sharedDir hshared hcanon _ fs rfl rfl rfl
        nm src data hfind habsent hsrcd hsrcl hsrcr hok
    | some b =>
      rw [hbest] at hok
      try dsimp only at hok ⊢
      cases hex : fs.lookupFile (sharedDir ++ ["MEMORY.md"]) with
      | some exfd =>
        have hstatM : fs.statNode (sharedDir ++ ["MEMORY.md"])
            = some (exfd.modTime, exfd.size) := by
          rw [statNode_canonical fs _ hlinkM hdirM, hex]
          rfl
        rw [hstatM] at hok ⊢
        try dsimp only at hok ⊢
        by_cases hwin : exfd.modTime > b.modTime ∨
            (exfd.modTime = b.modTime ∧ exfd.size ≥ b.size)
        · rw [if_pos hwin] at hok ⊢
          try dsimp only at hok ⊢
          exact copyOtherFiles_write fs sharedDir hshared hcanon _ fs rfl rfl
            rfl nm src data hfind habsent hsrcd hsrcl hsrcr hok
        · rw [if_neg hwin] at hok ⊢
          try dsimp only at hok ⊢
          cases hread : fs.readFile b.path with
          | none =>
            have hcf : copyFile fs b.path (sharedDir ++ ["MEMORY.md"])
                = none := by
              unfold copyFile
              rw [hread]
            rw [hcf] at hok
            try dsimp only at hok
            exact absurd hok (by simp)
          | some bdata =>
            have hfc := copyFile_canonical fs b.path sharedDir "MEMORY.md"
              bdata hlinkM hdirM hshared hread
            rw [hfc] at hok ⊢
            try dsimp only at hok ⊢
            apply copyOtherFiles_write fs sharedDir hshared hcanon _
              ({ fs with files := fs.files.filter (fun e => !decide (e.1 = sharedDir ++ ["MEMORY.md"])) ++ [(sharedDir ++ ["MEMORY.md"], ⟨bdata, fs.now⟩)] } : FS)
              rfl rfl rfl nm src data hfind ?_ hsrcd ?_ ?_ hok
            · rw [lookupFile_write_other fs _ _ _ hkM]
              exact habsent
            · exact hsrcl
            · rw [readFile_no_link _ src (by exact hsrcl),
                lookupFile_write_other fs _ _ src hsrc_neM,
                ← readFile_no_link fs src hsrcl]
              exact hsrcr
      | none =>
        have hstatM : fs.statNode (sharedDir ++ ["MEMORY.md"]) = none := by
          rw [statNode_canonical fs _ hlinkM hdirM, hex]
          rfl
        rw [hstatM] at hok ⊢
        try dsimp only at hok ⊢
        cases hread : fs.readFile b.path with
        | none =>
          have hcf : copyFile fs b.path (sharedDir ++ ["MEMORY.md"])
              = none := by
            unfold copyFile
            rw [hread]
          rw [hcf] at hok
          try dsimp only at hok
          exact absurd hok (by simp)
        | some bdata =>
          have hfc := copyFile_canonical fs b.path sharedDir "MEMORY.md"
            bdata hlinkM hdirM hshared hread
          rw [hfc] at hok ⊢
          try dsimp only at hok ⊢
          apply copyOtherFiles_write fs sharedDir hshared hcanon _
            ({ fs with files := fs.files.filter (fun e => !decide (e.1 = sharedDir ++ ["MEMORY.md"])) ++ [(sharedDir ++ ["MEMORY.md"], ⟨bdata, fs.now⟩)] } : FS)
            rfl rfl rfl nm src data hfind ?_ hsrcd ?_ ?_ hok
          · rw [lookupFile_write_other fs _ _ _ hkM]
            exact habsent
          · exact hsrcl
          · rw [readFile_no_link _ src (by exact hsrcl),
              lookupFile_write_other fs _ _ src hsrc_neM,
              ← readFile_no_link fs src hsrcl]
            exact hsrcr

/-- Witness for C3: two source accounts (`d1` older and smaller, `d2`
newer and larger) and a canonical dir that already holds an older
`MEMORY.md` and a `keep.md`: the newer summary is copied over the old one,
`keep.md` survives untouched, `notes.md` is copied from the only source
that has it; on a second state whose canonical summary is newer than every
candidate, the canonical summary survives. -/
theorem merge_policy_two_tier_witness :
    ((mergeMemoryContent
        ⟨[["s", "p"], ["a", "d1", "m"], ["a", "d2", "m"]],
         [(["a", "d1", "m", "MEMORY.md"], ⟨"old", 1⟩),
          (["a", "d2", "m", "MEMORY.md"], ⟨"newer!", 5⟩),
          (["a", "d1", "m", "notes.md"], ⟨"n1", 2⟩),
          (["s", "p", "keep.md"], ⟨"keep", 0⟩),
          (["s", "p", "MEMORY.md"], ⟨"can", 3⟩)],
         [], [], 9⟩
        [⟨"d1", ["a", "d1", "m"]⟩, ⟨"d2", ["a", "d2", "m"]⟩]
        ["s", "p"] ⟨"p", ["s", "p"], [], [], [], []⟩).1.lookupFile
        ["s", "p", "MEMORY.md"] = some ⟨"newer!", 9⟩) ∧
    ((mergeMemoryContent
        ⟨[["s", "p"], ["a", "d1", "m"], ["a", "d2", "m"]],
         [(["a", "d1", "m", "MEMORY.md"], ⟨"old", 1⟩),
          (["a", "d2", "m", "MEMORY.md"], ⟨"newer!", 5⟩),
          (["a", "d1", "m", "notes.md"], ⟨"n1", 2⟩),
          (["s", "p", "keep.md"], ⟨"keep", 0⟩),
          (["s", "p", "MEMORY.md"], ⟨"can", 3⟩)],
         [], [], 9⟩
        [⟨"d1", ["a", "d1", "m"]⟩, ⟨"d2", ["a", "d2", "m"]⟩]
        ["s", "p"] ⟨"p", ["s", "p"], [], [], [], []⟩).1.lookupFile
        ["s", "p", "keep.md"] = some ⟨"keep", 0⟩) ∧
    ((mergeMemoryContent
        ⟨[["s", "p"], ["a", "d1", "m"], ["a", "d2", "m"]],
         [(["a", "d1", "m", "MEMORY.md"], ⟨"old", 1⟩),
          (["a", "d2", "m", "MEMORY.md"], ⟨"newer!", 5⟩),
          (["a", "d1", "m", "notes.md"], ⟨"n1", 2⟩),
          (["s", "p", "keep.md"], ⟨"keep", 0⟩),
          (["s", "p", "MEMORY.md"], ⟨"can", 3⟩)],
         [], [], 9⟩
        [⟨"d1", ["a", "d1", "m"]⟩, ⟨"d2", ["a", "d2", "m"]⟩]
        ["s", "p"] ⟨"p", ["s", "p"], [], [], [], []⟩).1.lookupFile
        ["s", "p", "notes.md"] = some ⟨"n1", 9⟩) ∧
    ((mergeMemoryContent
        ⟨[["s", "p"], ["a", "d1", "m"], ["a", "d2", "m"]],
         [(["a", "d1", "m", "MEMORY.md"], ⟨"old", 1⟩),
          (["a", "d2", "m", "MEMORY.md"], ⟨"newer!", 5⟩),
          (["s", "p", "MEMORY.md"], ⟨"canon77", 7⟩)],
         [], [], 9⟩
        [⟨"d1", ["a", "d1", "m"]⟩, ⟨"d2", ["a", "d2", "m"]⟩]
        ["s", "p"] ⟨"p", ["s", "p"], [], [], [], []⟩).1.lookupFile
        ["s", "p", "MEMORY.md"] = some ⟨"canon77", 7⟩) := by
  have hcanon1 : ∀ nm : String,
      FS.lookupLink ⟨[["s", "p"], ["a", "d1", "m"], ["a", "d2", "m"]],
         [(["a", "d1", "m", "MEMORY.md"], ⟨"old", 1⟩),
          (["a", "d2", "m", "MEMORY.md"], ⟨"newer!", 5⟩),
          (["a", "d1", "m", "notes.md"], ⟨"n1", 2⟩),
          (["s", "p", "keep.md"], ⟨"keep", 0⟩),
          (["s", "p", "MEMORY.md"], ⟨"can", 3⟩)],
         [], [], 9⟩ (["s", "p"] ++ [nm]) = none ∧
      (["s", "p"] ++ [nm]) ∉ FS.dirs ⟨[["s", "p"], ["a", "d1", "m"],
          ["a", "d2", "m"]],
         [(["a", "d1", "m", "MEMORY.md"], ⟨"old", 1⟩),
          (["a", "d2", "m", "MEMORY.md"], ⟨"newer!", 5⟩),
          (["a", "d1", "m", "notes.md"], ⟨"n1", 2⟩),
          (["s", "p", "keep.md"], ⟨"keep", 0⟩),
          (["s", "p", "MEMORY.md"], ⟨"can", 3⟩)],
         [], [], 9⟩ := by
    intro nm
    refine ⟨rfl, ?_⟩
    intro h
    simp at h
  have hcanon2 : ∀ nm : String,
      FS.lookupLink ⟨[["s", "p"], ["a", "d1", "m"], ["a", "d2", "m"]],
         [(["a", "d1", "m", "MEMORY.md"], ⟨"old", 1⟩),
          (["a", "d2", "m", "MEMORY.md"], ⟨"newer!", 5⟩),
          (["s", "p", "MEMORY.md"], ⟨"canon77", 7⟩)],
         [], [], 9⟩ (["s", "p"] ++ [nm]) = none ∧
      (["s", "p"] ++ [nm]) ∉ FS.dirs ⟨[["s", "p"], ["a", "d1", "m"],
          ["a", "d2", "m"]],
         [(["a", "d1", "m", "MEMORY.md"], ⟨"old", 1⟩),
          (["a", "d2", "m", "MEMORY.md"], ⟨"newer!", 5⟩),
          (["s", "p", "MEMORY.md"], ⟨"canon77", 7⟩)],
         [], [], 9⟩ := by
    intro nm
    refine ⟨rfl, ?_⟩
    intro h
    simp at h
  have h1 := merge_policy_two_tier
    ⟨[["s", "p"], ["a", "d1", "m"], ["a", "d2", "m"]],
     [(["a", "d1", "m", "MEMORY.md"], ⟨"old", 1⟩),
      (["a", "d2", "m", "MEMORY.md"], ⟨"newer!", 5⟩),
      (["a", "d1", "m", "notes.md"], ⟨"n1", 2⟩),
      (["s", "p", "keep.md"], ⟨"keep", 0⟩),
      (["s", "p", "MEMORY.md"], ⟨"can", 3⟩)],
     [], [], 9⟩
    [⟨"d1", ["a", "d1", "m"]⟩, ⟨"d2", ["a", "d2", "m"]⟩]
    ["s", "p"] ⟨"p", ["s", "p"], [], [], [], []⟩ (by decide) hcanon1
  have h2 := merge_policy_two_tier
    ⟨[["s", "p"], ["a", "d1", "m"], ["a", "d2", "m"]],
     [(["a", "d1", "m", "MEMORY.md"], ⟨"old", 1⟩),
      (["a", "d2", "m", "MEMORY.md"], ⟨"newer!", 5⟩),
      (["s", "p", "MEMORY.md"], ⟨"canon77", 7⟩)],
     [], [], 9⟩
    [⟨"d1", ["a", "d1", "m"]⟩, ⟨"d2", ["a", "d2", "m"]⟩]
    ["s", "p"] ⟨"p", ["s", "p"], [], [], [], []⟩ (by decide) hcanon2
  refine ⟨?_, ?_, ?_, ?_⟩
  · exact h1.2.2.1 ⟨["a", "d2", "m", "MEMORY.md"], "d2", 5, 6⟩ (by decide)
      (fun exfd hex => by
        have h : (⟨"can", 3⟩ : FileData) = exfd := by injection hex
        rw [← h]
        decide)
      "newer!" (by decide)
  · exact h1.2.2.2.1 "keep.md" ⟨"keep", 0⟩ (by decide) (by decide)
  · exact h1.2.2.2.2 "notes.md" ["a", "d1", "m", "notes.md"] "n1"
      (by decide) (by decide) (by decide) (by decide) (by decide)
      (by decide) (by decide)
  · exact h2.2.1 ⟨["a", "d2", "m", "MEMORY.md"], "d2", 5, 6⟩ (by decide)
      ⟨"canon77", 7⟩ (by decide) (by decide)

/-! ## Claim theorems: memory unification (frame properties) -/

/-- C8: a dry-run unification pass returns the filesystem unchanged — it
creates no shared directory, no symlinks, copies nothing and deletes
nothing — while the result reports every entry classified as needing
consolidation as an account that would be linked. -/
theorem dry_run_makes_no_changes (fs : FS) (projectPath : String)
    (entries : List projectEntry) (sharedBase : Path) :
    (unifyProject fs projectPath entries sharedBase true).1 = fs ∧
    (unifyProject fs projectPath entries sharedBase true).2.SymlinksCreated
      = (classifyEntries fs (sharedBase ++ [projectPath]) entries).1.map
          (·.AccountName) ∧
    (unifyProject fs projectPath entries sharedBase true).2.AlreadyLinked
      = (classifyEntries fs (sharedBase ++ [projectPath]) entries).2 := by
  unfold unifyProject
  dsimp only
  by_cases h :
      (classifyEntries fs (sharedBase ++ [projectPath]) entries).1.isEmpty
  · have hnil : (classifyEntries fs (sharedBase ++ [projectPath]) entries).1
        = [] := by
      simpa [List.isEmpty_iff] using h
    simp [h, hnil]
  · simp [h]

/-- C9: when the (absolute) config dir does not lie under the (absolute)
accounts root, `UnifyProjectMemoryForConfigDir` returns success and leaves
the filesystem untouched, whatever the contents of the accounts root and
shared root. -/
theorem nonpooled_config_dir_is_noop (fs : FS)
    (accountsDir sharedBase configDir : Path)
    (h : ¬ accountsDir <+: configDir) :
    UnifyProjectMemoryForConfigDir fs accountsDir sharedBase configDir
      = (fs, true) := by
  have hlt : commonPrefixLen accountsDir configDir < accountsDir.length := by
    rcases Nat.lt_or_ge (commonPrefixLen accountsDir configDir)
        accountsDir.length with hl | hg
    · exact hl
    · exact absurd
        (isPrefix_of_commonPrefixLen_eq accountsDir configDir
          (Nat.le_antisymm (commonPrefixLen_le_left accountsDir configDir) hg))
        h
  have hdd : relHasDotDotPrefix (goRelSegs accountsDir configDir) = true := by
    unfold goRelSegs relHasDotDotPrefix
    dsimp only
    obtain ⟨m, hm⟩ : ∃ m,
        accountsDir.length - commonPrefixLen accountsDir configDir = m + 1 :=
      ⟨accountsDir.length - commonPrefixLen accountsDir configDir - 1,
        by omega⟩
    rw [hm, List.replicate_succ, List.cons_append]
    show strStartsWithDotDot ".." = true
    decide
  unfold UnifyProjectMemoryForConfigDir
  simp [hdd]

/-- Witness for C9: a config dir beside (not under) the accounts root, on
a filesystem that does contain account data. -/
theorem nonpooled_config_dir_is_noop_witness :
    UnifyProjectMemoryForConfigDir
      ⟨[["home", "u", ".claude-accounts"],
        ["home", "u", ".claude-accounts", "dev1"]], [], [], [], 5⟩
      ["home", "u", ".claude-accounts"] ["home", "u", "shared"]
      ["home", "u", ".claude"]
      = (⟨[["home", "u", ".claude-accounts"],
          ["home", "u", ".claude-accounts", "dev1"]], [], [], [], 5⟩, true) :=
  nonpooled_config_dir_is_noop _ _ _ _ (by decide)

/-! ## Already-linked classification (C4) -/

/-- An entry that is a symlink resolving to the shared dir is classified
as already linked. -/
theorem classifyStep_linked (fs : FS) (sharedDir : Path)
    (st : List projectEntry × List String) (entry : projectEntry)
    (ht : ∃ t, fs.lookupLink entry.MemoryDir = some t ∧
        resolveTarget entry.MemoryDir t = sharedDir) :
    classifyStep fs sharedDir st entry = (st.1, st.2 ++ [entry.AccountName]) := by
  obtain ⟨t, hl, hr⟩ := ht
  have hls : fs.lstat entry.MemoryDir = some .symlink := by
    unfold FS.lstat
    simp [hl]
  have hm : symlinkMatchesTarget fs entry.MemoryDir sharedDir = true := by
    unfold symlinkMatchesTarget
    rw [hl]
    simp [hr]
  unfold classifyStep
  rw [hls]
  simp [hm]

theorem classify_fold_all_linked (fs : FS) (sharedDir : Path)
    (entries : List projectEntry)
    (h : ∀ e ∈ entries, ∃ t, fs.lookupLink e.MemoryDir = some t ∧
        resolveTarget e.MemoryDir t = sharedDir) :
    ∀ acc, entries.foldl (classifyStep fs sharedDir) acc
      = (acc.1, acc.2 ++ entries.map (·.AccountName)) := by
  induction entries with
  | nil => intro acc; simp
  | cons e rest ih =>
    intro acc
    rw [List.foldl_cons,
      classifyStep_linked fs sharedDir acc e (h e (List.mem_cons_self e rest)),
      ih (fun x hx => h x (List.mem_cons_of_mem _ hx))]
    simp

/-- C4: when every entry of a project is already a symlink resolving
(after making relative targets absolute against the directory of the link)
to the canonical shared directory, unification performs no filesystem
mutation and classifies every account as already linked. -/
theorem already_linked_unify_is_noop (fs : FS) (projectPath : String)
    (entries : List projectEntry) (sharedBase : Path) (dryRun : Bool)
    (h : ∀ e ∈ entries, ∃ t, fs.lookupLink e.MemoryDir = some t ∧
        resolveTarget e.MemoryDir t = sharedBase ++ [projectPath]) :
    (unifyProject fs projectPath entries sharedBase dryRun).1 = fs ∧
    (unifyProject fs projectPath entries sharedBase dryRun).2.AlreadyLinked
      = entries.map (·.AccountName) ∧
    (unifyProject fs projectPath entries sharedBase dryRun).2.SymlinksCreated
      = [] ∧
    (unifyProject fs projectPath entries sharedBase dryRun).2.Warnings = [] := by
  have hc : classifyEntries fs (sharedBase ++ [projectPath]) entries
      = ([], entries.map (·.AccountName)) := by
    unfold classifyEntries
    rw [classify_fold_all_linked fs _ entries h ([], [])]
    simp
  unfold unifyProject
  dsimp only
  rw [hc]
  simp

/-- Witness for C4: two accounts, one symlinked with an absolute target
and one with a relative `../..`-style target, both resolving to the shared
directory; re-running unification changes nothing. -/
theorem already_linked_unify_is_noop_witness :
    (unifyProject
      ⟨[["s", "p"]],
       [(["s", "p", "MEMORY.md"], ⟨"m", 3⟩)],
       [(["a", "dev1", "projects", "p", "memory"], ⟨true, ["s", "p"]⟩),
        (["a", "dev2", "projects", "p", "memory"],
          ⟨false, ["..", "..", "..", "..", "s", "p"]⟩)],
       [], 9⟩
      "p"
      [⟨"dev1", ["a", "dev1", "projects", "p", "memory"]⟩,
       ⟨"dev2", ["a", "dev2", "projects", "p", "memory"]⟩]
      ["s"] false).1
      = ⟨[["s", "p"]],
       [(["s", "p", "MEMORY.md"], ⟨"m", 3⟩)],
       [(["a", "dev1", "projects", "p", "memory"], ⟨true, ["s", "p"]⟩),
        (["a", "dev2", "projects", "p", "memory"],
          ⟨false, ["..", "..", "..", "..", "s", "p"]⟩)],
       [], 9⟩ ∧
    (unifyProject
      ⟨[["s", "p"]],
       [(["s", "p", "MEMORY.md"], ⟨"m", 3⟩)],
       [(["a", "dev1", "projects", "p", "memory"], ⟨true, ["s", "p"]⟩),
        (["a", "dev2", "projects", "p", "memory"],
          ⟨false, ["..", "..", "..", "..", "s", "p"]⟩)],
       [], 9⟩
      "p"
      [⟨"dev1", ["a", "dev1", "projects", "p", "memory"]⟩,
       ⟨"dev2", ["a", "dev2", "projects", "p", "memory"]⟩]
      ["s"] false).2.AlreadyLinked = ["dev1", "dev2"] := by
  have h := already_linked_unify_is_noop
    ⟨[["s", "p"]],
     [(["s", "p", "MEMORY.md"], ⟨"m", 3⟩)],
     [(["a", "dev1", "projects", "p", "memory"], ⟨true, ["s", "p"]⟩),
      (["a", "dev2", "projects", "p", "memory"],
        ⟨false, ["..", "..", "..", "..", "s", "p"]⟩)],
     [], 9⟩
    "p"
    [⟨"dev1", ["a", "dev1", "projects", "p", "memory"]⟩,
     ⟨"dev2", ["a", "dev2", "projects", "p", "memory"]⟩]
    ["s"] false (by decide)
  exact ⟨h.1, h.2.1⟩

end Gastown.Quota
